import Mathlib

/-!
# Verification of the in-memory social-graph engine of the Twitter-like backend

Shallow embedding of the repository's core state and operations
(`storage.py`, `models.py`, `routers/users.py`, `routers/tweets.py`,
`routers/retweets.py`, `routers/follows.py`, `routers/likes.py`,
`routers/timeline.py`, `routers/hashtags.py`, `routers/mentions.py`).

Modelling conventions:
* Python `dict`s whose key set is iterated or whose key presence is
  observable (`users`, `usernames`, `tweets`, `likes`) become
  insertion-ordered association lists (`List (String × α)`), matching
  CPython's insertion-ordered dictionaries; `d[k] = v` updates in place
  when the key exists and appends otherwise.
* The dicts `followers`, `following` and `hashtag_index` are only ever
  read through `.get(k, default)` / `.setdefault(k, default)` followed by
  element-wise access, so they are modelled as total functions with the
  empty default; `setdefault` with the default value is then the identity.
* Python `set` becomes `Finset String`; `set.add` is `insert`,
  `set.discard` is `Finset.erase`.
* `uuid4()` and `datetime.utcnow().isoformat()` are external inputs: the
  operations take the fresh id and the timestamp string as parameters.
* `HTTPException` raises are modelled by returning `Except.error` together
  with the state at the moment of the raise; Pydantic request-model
  validation (which runs before the handler body) is part of each
  operation.
-/

namespace TwitterApp

/-- Error kinds of the engine, one per `HTTPException`/validation site
(404 → `notFound`/`notFollowing`/`notLiked` by site, 409 → `duplicateUsername`/
`alreadyFollowing`/`alreadyLiked`, 400 → `selfFollow`/`bodyTooLong`,
422 → `validation`). -/
inductive Err where
  | notFound
  | duplicateUsername
  | selfFollow
  | alreadyFollowing
  | notFollowing
  | alreadyLiked
  | notLiked
  | bodyTooLong
  | validation
deriving DecidableEq, Repr

/-- `d.get(k)` on an insertion-ordered dict. -/
def dictGet? {α : Type} (d : List (String × α)) (k : String) : Option α :=
  (d.find? (fun p => p.1 == k)).map Prod.snd

/-- `d[k] = v`: replace the entry in place if the key exists
(CPython keeps the key's position), append otherwise. -/
def dictSet {α : Type} : List (String × α) → String → α → List (String × α)
  | [], k, v => [(k, v)]
  | p :: d, k, v => if p.1 == k then (k, v) :: d else p :: dictSet d k v

/-- `del d[k]` / `d.pop(k, None)`: drop the entry with key `k`. -/
def dictDel {α : Type} (d : List (String × α)) (k : String) :
    List (String × α) :=
  d.filter (fun p => !(p.1 == k))

/-- Stored user record (the dict built in `users.create_user`). -/
structure User where
  id : String
  username : String
  display_name : String
  bio : Option String
  created_at : String
deriving DecidableEq, Repr

/-- Stored tweet record (the dict built in `tweets.create_tweet`,
`retweets.create_retweet`, `retweets.create_quote_tweet`).  The Python
key `"type"` is called `ttype` here (`type` is reserved in Lean); its
values are the strings `"tweet"`, `"retweet"`, `"quote"`. -/
structure Tweet where
  id : String
  ttype : String
  user_id : String
  content : Option String
  created_at : String
  hashtags : List String
  mentions : List String
  original_tweet_id : Option String
deriving DecidableEq, Repr

/-- The module-level stores of `storage.py`. -/
structure State where
  users : List (String × User)
  usernames : List (String × String)
  tweets : List (String × Tweet)
  followers : String → Finset String
  following : String → Finset String
  likes : List (String × Finset String)
  hashtag_index : String → List String

/-- `reset_storage()`: all stores empty. -/
def State.init : State :=
  ⟨[], [], [], fun _ => ∅, fun _ => ∅, [], fun _ => []⟩

/-- Python's `\w` word character (letters, digits, underscore; the source
texts are ASCII so the ASCII classifier is used). -/
def isWordChar (c : Char) : Bool :=
  c.isAlpha || c.isDigit || c = '_'

/-- Left-to-right scan for the non-overlapping matches of `sym(\w+)`
(the behaviour of `re.findall` for `#(\w+)` / `@(\w+)`): at a `sym`
followed by at least one word character, capture the maximal word-character
run and resume after it. -/
def scanTags (sym : Char) : List Char → List String
  | [] => []
  | c :: rest =>
    if c = sym then
      let w := rest.takeWhile isWordChar
      if w.isEmpty then scanTags sym rest
      else String.mk w :: scanTags sym (rest.drop w.length)
    else scanTags sym rest
termination_by l => l.length
decreasing_by
  · simp
  · simp [List.length_drop]; omega
  · simp

/-- Python `str.lower()` (ASCII case folding; the repository's data is
ASCII). -/
def pyLower (s : String) : String := String.mk (s.data.map Char.toLower)

/-- `list(dict.fromkeys(xs))`: de-duplicate keeping first occurrences. -/
def dedupFirst (l : List String) : List String :=
  l.foldl (fun acc x => if x ∈ acc then acc else acc ++ [x]) []

/-- `tweets._extract_hashtags`: lowercased, first-occurrence de-duplicated
`#`-tags of the content. -/
def extract_hashtags (content : String) : List String :=
  dedupFirst ((scanTags '#' content.data).map pyLower)

/-- `tweets._extract_mentions`: first-occurrence de-duplicated `@`-mentions,
casing preserved. -/
def extract_mentions (content : String) : List String :=
  dedupFirst (scanTags '@' content.data)

/-- `tweets._index_hashtags`: append `tweet_id` to each tag's list. -/
def index_hashtags (idx : String → List String) (tweet_id : String)
    (hashtags : List String) : String → List String :=
  hashtags.foldl
    (fun f tag => Function.update f tag (f tag ++ [tweet_id])) idx

/-- `tweets._deindex_hashtags`: remove the first occurrence of `tweet_id`
from each recorded tag's list (`list.remove`; no-op when absent). -/
def deindex_hashtags (idx : String → List String) (tweet_id : String)
    (hashtags : List String) : String → List String :=
  hashtags.foldl
    (fun f tag => Function.update f tag ((f tag).erase tweet_id)) idx

/-- Python `str.strip()`: drop whitespace from both ends. -/
def pyStrip (s : String) : String :=
  String.mk
    (((s.data.dropWhile Char.isWhitespace).reverse.dropWhile
      Char.isWhitespace).reverse)

/-- Pydantic `UserCreate` validation: both `username` and `display_name`
are stripped and must be non-blank (`username_nonempty`,
`display_name_nonempty`); returns the validated payload. -/
def UserCreate.validate (username display_name : String)
    (bio : Option String) : Option (String × String × Option String) :=
  let u := pyStrip username
  if u = "" then none
  else
    let d := pyStrip display_name
    if d = "" then none
    else some (u, d, bio)

/-- `users.create_user` (POST /users), Pydantic validation included. -/
def create_user (s : State) (uid now : String)
    (username display_name : String) (bio : Option String) :
    Except Err User × State :=
  match UserCreate.validate username display_name bio with
  | none => (.error .validation, s)
  | some (username, display_name, bio) =>
    let normalized := pyLower username
    if (dictGet? s.usernames normalized).isSome then
      (.error .duplicateUsername, s)
    else
      let user : User := ⟨uid, username, display_name, bio, now⟩
      (.ok user,
        { s with
          users := dictSet s.users uid user
          usernames := dictSet s.usernames normalized uid
          followers := Function.update s.followers uid ∅
          following := Function.update s.following uid ∅ })

/-- `users.update_user` (PUT /users/\x7buser_id\x7d).  `UserUpdate` has no
validators: a supplied `display_name` is stored verbatim. -/
def update_user (s : State) (user_id : String)
    (display_name bio : Option String) : Except Err User × State :=
  match dictGet? s.users user_id with
  | none => (.error .notFound, s)
  | some user =>
    let user := match display_name with
      | some d => { user with display_name := d }
      | none => user
    let user := match bio with
      | some b => { user with bio := some b }
      | none => user
    (.ok user, { s with users := dictSet s.users user_id user })

/-- `tweets.create_tweet` (POST /tweets).  The Pydantic `TweetCreate`
length validator runs first (the same ≤280 condition as the handler's
own guard, so both raise sites are labelled `bodyTooLong`); the handler
re-checks user existence and length before any mutation. -/
def create_tweet (s : State) (tid now : String)
    (user_id content : String) : Except Err Tweet × State :=
  if content.length > 280 then (.error .bodyTooLong, s)
  else if (dictGet? s.users user_id).isNone then (.error .notFound, s)
  else if content.length > 280 then (.error .bodyTooLong, s)
  else
    let hashtags := extract_hashtags content
    let mentions := extract_mentions content
    let tweet : Tweet :=
      ⟨tid, "tweet", user_id, some content, now, hashtags, mentions, none⟩
    (.ok tweet,
      { s with
        tweets := dictSet s.tweets tid tweet
        likes := dictSet s.likes tid ∅
        hashtag_index := index_hashtags s.hashtag_index tid hashtags })

/-- `retweets.create_retweet` (POST /tweets/\x7btweet_id\x7d/retweet). -/
def create_retweet (s : State) (tweet_id tid now user_id : String) :
    Except Err Tweet × State :=
  if (dictGet? s.tweets tweet_id).isNone then (.error .notFound, s)
  else if (dictGet? s.users user_id).isNone then (.error .notFound, s)
  else
    let retweet : Tweet :=
      ⟨tid, "retweet", user_id, none, now, [], [], some tweet_id⟩
    (.ok retweet,
      { s with
        tweets := dictSet s.tweets tid retweet
        likes := dictSet s.likes tid ∅ })

/-- `retweets.create_quote_tweet` (POST /tweets/\x7btweet_id\x7d/quote).
Pydantic `QuoteTweetCreate` length validation first, then existence
checks, then the handler's own length guard, then the mutation. -/
def create_quote_tweet (s : State) (tweet_id tid now user_id content : String) :
    Except Err Tweet × State :=
  if content.length > 280 then (.error .bodyTooLong, s)
  else if (dictGet? s.tweets tweet_id).isNone then (.error .notFound, s)
  else if (dictGet? s.users user_id).isNone then (.error .notFound, s)
  else if content.length > 280 then (.error .bodyTooLong, s)
  else
    let hashtags := extract_hashtags content
    let mentions := extract_mentions content
    let quote_tweet : Tweet :=
      ⟨tid, "quote", user_id, some content, now, hashtags, mentions,
        some tweet_id⟩
    (.ok quote_tweet,
      { s with
        tweets := dictSet s.tweets tid quote_tweet
        likes := dictSet s.likes tid ∅
        hashtag_index := index_hashtags s.hashtag_index tid hashtags })

/-- `tweets.delete_tweet` (DELETE /tweets/\x7btweet_id\x7d): deindex the
recorded hashtags, drop the like set, drop the record. -/
def delete_tweet (s : State) (tweet_id : String) : Except Err Unit × State :=
  match dictGet? s.tweets tweet_id with
  | none => (.error .notFound, s)
  | some tweet =>
    (.ok (),
      { s with
        hashtag_index :=
          deindex_hashtags s.hashtag_index tweet_id tweet.hashtags
        likes := dictDel s.likes tweet_id
        tweets := dictDel s.tweets tweet_id })

/-- `follows.follow_user` (POST /users/\x7buser_id\x7d/follow).  The
`setdefault(_, set())` calls on the function-modelled stores are the
identity and are elided. -/
def follow_user (s : State) (user_id target_id : String) :
    Except Err Unit × State :=
  if (dictGet? s.users user_id).isNone then (.error .notFound, s)
  else if (dictGet? s.users target_id).isNone then (.error .notFound, s)
  else if user_id = target_id then (.error .selfFollow, s)
  else if target_id ∈ s.following user_id then (.error .alreadyFollowing, s)
  else
    (.ok (),
      { s with
        following := Function.update s.following user_id
          (insert target_id (s.following user_id))
        followers := Function.update s.followers target_id
          (insert user_id (s.followers target_id)) })

/-- `follows.unfollow_user` (DELETE /users/\x7buser_id\x7d/follow). -/
def unfollow_user (s : State) (user_id target_user_id : String) :
    Except Err Unit × State :=
  if (dictGet? s.users user_id).isNone then (.error .notFound, s)
  else if (dictGet? s.users target_user_id).isNone then (.error .notFound, s)
  else if target_user_id ∉ s.following user_id then
    (.error .notFollowing, s)
  else
    (.ok (),
      { s with
        following := Function.update s.following user_id
          ((s.following user_id).erase target_user_id)
        followers := Function.update s.followers target_user_id
          ((s.followers target_user_id).erase user_id) })

/-- `likes.like_tweet` (POST /tweets/\x7btweet_id\x7d/like).  Mirrors
`likes.setdefault(tweet_id, set())` on the association-list store: the
key is materialised before the membership check. -/
def like_tweet (s : State) (tweet_id user_id : String) :
    Except Err Nat × State :=
  if (dictGet? s.tweets tweet_id).isNone then (.error .notFound, s)
  else
    let s := if (dictGet? s.likes tweet_id).isSome then s
             else { s with likes := dictSet s.likes tweet_id ∅ }
    let likers := (dictGet? s.likes tweet_id).getD ∅
    if user_id ∈ likers then (.error .alreadyLiked, s)
    else
      let likers := insert user_id likers
      (.ok likers.card, { s with likes := dictSet s.likes tweet_id likers })

/-- `likes.unlike_tweet` (DELETE /tweets/\x7btweet_id\x7d/like). -/
def unlike_tweet (s : State) (tweet_id user_id : String) :
    Except Err Nat × State :=
  if (dictGet? s.tweets tweet_id).isNone then (.error .notFound, s)
  else
    let likers := (dictGet? s.likes tweet_id).getD ∅
    if user_id ∉ likers then (.error .notLiked, s)
    else
      let likers := likers.erase user_id
      (.ok likers.card, { s with likes := dictSet s.likes tweet_id likers })

/-- Response shape for a user resource (`UserOut`). -/
structure UserOut where
  id : String
  username : String
  display_name : String
  bio : Option String
  followers_count : Nat
  following_count : Nat
  tweet_count : Nat
  created_at : String
deriving DecidableEq, Repr

/-- Response shape for a tweet resource (`TweetOut`); recursive through
the optional embedded `original_tweet`, hence an inductive type. -/
inductive TweetOut where
  | mk
    (id : String) (ttype : String) (user_id : String)
    (content : Option String) (created_at : String)
    (hashtags : List String) (mentions : List String)
    (like_count : Nat) (retweet_count : Nat) (quote_count : Nat)
    (original_tweet_id : Option String)
    (original_tweet : Option TweetOut)
    (author : Option UserOut) : TweetOut

def TweetOut.id : TweetOut → String
  | .mk i _ _ _ _ _ _ _ _ _ _ _ _ => i

def TweetOut.created_at : TweetOut → String
  | .mk _ _ _ _ c _ _ _ _ _ _ _ _ => c

def TweetOut.original_tweet_id : TweetOut → Option String
  | .mk _ _ _ _ _ _ _ _ _ _ o _ _ => o

def TweetOut.original_tweet : TweetOut → Option TweetOut
  | .mk _ _ _ _ _ _ _ _ _ _ _ e _ => e

/-- `tweets._build_user_out` (same code is repeated in `users.py` and
`follows.py`): profile with live-computed counts. -/
def build_user_out (s : State) (user : User) : UserOut :=
  let uid := user.id
  ⟨uid, user.username, user.display_name, user.bio,
    (s.followers uid).card, (s.following uid).card,
    (s.tweets.filter (fun p => p.2.user_id == uid)).length,
    user.created_at⟩

/-- `tweets._count_retweets`. -/
def count_retweets (s : State) (tweet_id : String) : Nat :=
  (s.tweets.filter (fun p =>
    p.2.ttype == "retweet" && p.2.original_tweet_id == some tweet_id)).length

/-- `tweets._count_quotes`. -/
def count_quotes (s : State) (tweet_id : String) : Nat :=
  (s.tweets.filter (fun p =>
    p.2.ttype == "quote" && p.2.original_tweet_id == some tweet_id)).length

/-- `tweets._build_tweet_out`: tweet view with live counts; the original
tweet of a retweet/quote is embedded only at `depth == 0` (the recursive
call passes `depth = 1`), and Python's truthiness test `if orig_id and
depth == 0` also skips an empty-string id. -/
def build_tweet_out (s : State) (depth : Nat) (t : Tweet) : TweetOut :=
  let author := (dictGet? s.users t.user_id).map (build_user_out s)
  let original_tweet_out : Option TweetOut :=
    match t.original_tweet_id, depth with
    | some oid, 0 =>
      if oid = "" then none
      else
        match dictGet? s.tweets oid with
        | some orig => some (build_tweet_out s 1 orig)
        | none => none
    | _, _ => none
  .mk t.id t.ttype t.user_id t.content t.created_at t.hashtags t.mentions
    ((dictGet? s.likes t.id).getD ∅).card
    (count_retweets s t.id) (count_quotes s t.id)
    t.original_tweet_id original_tweet_out author
termination_by 1 - depth

/-- `tweets.get_tweet` (GET /tweets/\x7btweet_id\x7d). -/
def get_tweet (s : State) (tweet_id : String) : Except Err TweetOut :=
  match dictGet? s.tweets tweet_id with
  | none => .error .notFound
  | some tweet => .ok (build_tweet_out s 0 tweet)

/-- One step of Python's stable sort in descending key order
(`list.sort(key=key, reverse=True)`): the new element is placed after
every element whose key is ≥ its own, so earlier-listed elements keep
their relative position on ties. -/
def insortDesc {α : Type} (key : α → String) (x : α) :
    List α → List α
  | [] => [x]
  | y :: ys =>
    if key x ≤ key y then y :: insortDesc key x ys else x :: y :: ys

/-- `l.sort(key=key, reverse=True)` as a stable insertion sort, the
elements taken left to right. -/
def pySortDesc {α : Type} (key : α → String) (l : List α) : List α :=
  l.foldl (fun acc x => insortDesc key x acc) []

/-- The `feed_tweets` list of `timeline.get_timeline`: tweets of followed
users, in the insertion order of `storage.tweets`. -/
def timeline_feed (s : State) (user_id : String) : List Tweet :=
  (s.tweets.map Prod.snd).filter
    (fun t => decide (t.user_id ∈ s.following user_id))

/-- `timeline.get_timeline` (GET /users/\x7buser_id\x7d/timeline). -/
def get_timeline (s : State) (user_id : String) :
    Except Err (List TweetOut) :=
  if (dictGet? s.users user_id).isNone then .error .notFound
  else if s.following user_id = ∅ then .ok []
  else .ok ((pySortDesc Tweet.created_at (timeline_feed s user_id)).map
    (build_tweet_out s 0))

/-- The `user_tweets` list of `users.get_user_tweets`. -/
def user_tweets_feed (s : State) (user_id : String) : List Tweet :=
  (s.tweets.map Prod.snd).filter (fun t => t.user_id == user_id)

/-- `users.get_user_tweets` (GET /users/\x7buser_id\x7d/tweets). -/
def get_user_tweets (s : State) (user_id : String) :
    Except Err (List TweetOut) :=
  if (dictGet? s.users user_id).isNone then .error .notFound
  else .ok ((pySortDesc Tweet.created_at (user_tweets_feed s user_id)).map
    (build_tweet_out s 0))

/-- The `mentioned_tweets` list of `mentions.get_mentions` for a stored
username: tweets one of whose recorded mentions equals it
case-insensitively. -/
def mentions_feed (s : State) (username_lower : String) : List Tweet :=
  (s.tweets.map Prod.snd).filter
    (fun t => t.mentions.any (fun m => pyLower m == username_lower))

/-- `mentions.get_mentions` (GET /users/\x7buser_id\x7d/mentions). -/
def get_mentions (s : State) (user_id : String) :
    Except Err (List TweetOut) :=
  match dictGet? s.users user_id with
  | none => .error .notFound
  | some user =>
    .ok ((pySortDesc Tweet.created_at
      (mentions_feed s (pyLower user.username))).map (build_tweet_out s 0))

/-- The `result` list of `hashtags.get_tweets_by_hashtag`: the tag's
index entries that still resolve, in index (creation) order. -/
def hashtag_feed (s : State) (tag : String) : List Tweet :=
  (s.hashtag_index (pyLower tag)).filterMap (fun tid => dictGet? s.tweets tid)

/-- `hashtags.get_tweets_by_hashtag` (GET /hashtags/\x7btag\x7d/tweets). -/
def get_tweets_by_hashtag (s : State) (tag : String) : List TweetOut :=
  (pySortDesc Tweet.created_at (hashtag_feed s tag)).map (build_tweet_out s 0)

/-- States reachable from the empty stores by any sequence of operations
(each applied with arbitrary arguments, keeping the op's final state
whether it succeeded or raised).  `uuid4()` ids are globally unique, so
the create steps carry the freshness of the generated id as a side
condition.  The parameter `P` restricts the `display_name` payloads of
`update_user` steps (instantiated with the trivial predicate for plain
reachability). -/
inductive ReachableP (P : Option String → Prop) : State → Prop where
  | init : ReachableP P State.init
  | step_create_user {s} (uid now username display_name : String)
      (bio : Option String) : ReachableP P s → uid ∉ s.users.map Prod.fst →
      ReachableP P (create_user s uid now username display_name bio).2
  | step_update_user {s} (user_id : String) (display_name bio : Option String) :
      ReachableP P s → P display_name →
      ReachableP P (update_user s user_id display_name bio).2
  | step_create_tweet {s} (tid now user_id content : String) :
      ReachableP P s → tid ∉ s.tweets.map Prod.fst →
      ReachableP P (create_tweet s tid now user_id content).2
  | step_create_retweet {s} (tweet_id tid now user_id : String) :
      ReachableP P s → tid ∉ s.tweets.map Prod.fst →
      ReachableP P (create_retweet s tweet_id tid now user_id).2
  | step_create_quote_tweet {s} (tweet_id tid now user_id content : String) :
      ReachableP P s → tid ∉ s.tweets.map Prod.fst →
      ReachableP P (create_quote_tweet s tweet_id tid now user_id content).2
  | step_delete_tweet {s} (tweet_id : String) : ReachableP P s →
      ReachableP P (delete_tweet s tweet_id).2
  | step_follow_user {s} (user_id target_id : String) : ReachableP P s →
      ReachableP P (follow_user s user_id target_id).2
  | step_unfollow_user {s} (user_id target_id : String) : ReachableP P s →
      ReachableP P (unfollow_user s user_id target_id).2
  | step_like_tweet {s} (tweet_id user_id : String) : ReachableP P s →
      ReachableP P (like_tweet s tweet_id user_id).2
  | step_unlike_tweet {s} (tweet_id user_id : String) : ReachableP P s →
      ReachableP P (unlike_tweet s tweet_id user_id).2

/-- Plain reachability: any operation sequence, arbitrary payloads. -/
def Reachable : State → Prop := ReachableP (fun _ => True)

/-- Follow-graph symmetry: the two mirrored adjacency views agree. -/
def FollowSym (s : State) : Prop :=
  ∀ a b, b ∈ s.following a ↔ a ∈ s.followers b

/-- Every follow edge joins two registered users. -/
def EdgesRegistered (s : State) : Prop :=
  ∀ a b, b ∈ s.following a →
    (dictGet? s.users a).isSome ∧ (dictGet? s.users b).isSome

/-- The recorded hashtag list of every stored tweet is duplicate-free
(extraction de-duplicates). -/
def RecordedTagsNodup (s : State) : Prop :=
  ∀ tid t, dictGet? s.tweets tid = some t → t.hashtags.Nodup

/-- Hashtag-index invariant: each tag's list is duplicate-free, every
listed id resolves to a live tweet that records the tag, and the list is
a subsequence of the store's insertion-ordered key sequence (hence in
post-creation order). -/
def HashtagIndexInv (s : State) : Prop :=
  ∀ tag, (s.hashtag_index tag).Nodup ∧
    (∀ tid ∈ s.hashtag_index tag,
      ∃ t, dictGet? s.tweets tid = some t ∧ tag ∈ t.hashtags) ∧
    (s.hashtag_index tag).Sublist (s.tweets.map Prod.fst)

/-- The inductive state invariant of the engine. -/
def Good (s : State) : Prop :=
  (s.tweets.map Prod.fst).Nodup ∧ FollowSym s ∧ EdgesRegistered s ∧
    RecordedTagsNodup s ∧ HashtagIndexInv s

/-- Every stored user has a non-empty display name. -/
def DisplayNamesNonempty (s : State) : Prop :=
  ∀ uid u, dictGet? s.users uid = some u → u.display_name ≠ ""

/-- Restriction on `update_user` payloads: a supplied display name is
non-empty. -/
def NonemptyDisplayPayload (display_name : Option String) : Prop :=
  ∀ d, display_name = some d → d ≠ ""

/-- The returned view list `out` is newest-first in a strict
deterministic total order over the pre-sort feed `base`: it is a
permutation of `base` (by ids), and any two consecutive views are ordered
by creation timestamp descending, ties fixed by the relative position of
their ids in `base` — the deterministic insertion sequence, not an
incidental iteration order. -/
def OutOrdered (out : List TweetOut) (base : List Tweet) : Prop :=
  out.map TweetOut.id = (pySortDesc Tweet.created_at base).map Tweet.id ∧
  (out.map TweetOut.id).Perm (base.map Tweet.id) ∧
  out.Pairwise (fun a b => b.created_at < a.created_at ∨
    (a.created_at = b.created_at ∧
      [a.id, b.id].Sublist (base.map Tweet.id)))

/-! ## Concrete sample data (used to instantiate proved theorems) -/

/-- A sample registered user. -/
def wUser : User := ⟨"u1", "alice", "Alice", none, "t0"⟩

/-- A sample stored tweet by `wUser` carrying hashtag `x`. -/
def wTweet : Tweet := ⟨"t1", "tweet", "u1", some "hi #x", "t0", ["x"], [], none⟩

/-- A sample state: one user, one tweet, consistent hashtag index. -/
def wState : State :=
  { users := [("u1", wUser)]
    usernames := [("alice", "u1")]
    tweets := [("t1", wTweet)]
    followers := fun _ => ∅
    following := fun _ => ∅
    likes := [("t1", ∅)]
    hashtag_index := fun tag => if tag = "x" then ["t1"] else [] }

/-- A sample original tweet for the retweet-chain state. -/
def wOrig : Tweet := ⟨"o1", "tweet", "u1", some "hi", "t0", [], [], none⟩

/-- A sample retweet of `wOrig`. -/
def wRetweet : Tweet := ⟨"r1", "retweet", "u1", none, "t1", [], [], some "o1"⟩

/-- A sample state holding an original and a retweet of it. -/
def wChainState : State :=
  { users := []
    usernames := []
    tweets := [("o1", wOrig), ("r1", wRetweet)]
    followers := fun _ => ∅
    following := fun _ => ∅
    likes := []
    hashtag_index := fun _ => [] }

/-- State after registering user `u1` (username `alice`). -/
def cS0 : State := (create_user State.init "u1" "t0" "alice" "Alice" none).2

/-- State after additionally updating `u1` with an empty display name. -/
def cS1 : State := (update_user cS0 "u1" (some "") none).2

/-- Reachable state: user `a` registered. -/
def wR1 : State := (create_user State.init "a" "t1" "alice" "Alice" none).2

/-- Reachable state: users `a` and `b` registered. -/
def wR2 : State := (create_user wR1 "b" "t2" "bob" "Bob" none).2

/-- Reachable state: `a` follows `b`. -/
def wR3 : State := (follow_user wR2 "a" "b").2

/-- Reachable state: `a` additionally posted `hello #x`. -/
def wR4 : State := (create_tweet wR3 "p1" "t3" "a" "hello #x").2

/-- A 280-code-point body. -/
def wBody280 : String := String.mk (List.replicate 280 'a')

/-- A 281-code-point body. -/
def wBody281 : String := String.mk (List.replicate 281 'a')

/-! ## Association-list dictionary lemmas -/

theorem dictGet?_nil {α : Type} (k : String) :
    dictGet? ([] : List (String × α)) k = none := rfl

theorem dictGet?_cons {α : Type} (p : String × α) (d : List (String × α))
    (k : String) :
    dictGet? (p :: d) k = if p.1 = k then some p.2 else dictGet? d k := by
  by_cases h : p.1 = k
  · unfold dictGet?
    rw [List.find?_cons_of_pos _ (by simpa using h), if_pos h]
    rfl
  · unfold dictGet?
    rw [List.find?_cons_of_neg _ (by simpa using h), if_neg h]

theorem dictGet?_eq_none_iff {α : Type} (d : List (String × α)) (k : String) :
    dictGet? d k = none ↔ k ∉ d.map Prod.fst := by
  induction d with
  | nil => simp [dictGet?_nil]
  | cons p d ih =>
    rw [dictGet?_cons]
    by_cases h : p.1 = k
    · simp [h]
    · rw [if_neg h, ih]
      simp only [List.map_cons, List.mem_cons, not_or]
      exact ⟨fun hk => ⟨fun he => h he.symm, hk⟩, fun hk => hk.2⟩

theorem dictGet?_isSome_iff {α : Type} (d : List (String × α)) (k : String) :
    (dictGet? d k).isSome ↔ k ∈ d.map Prod.fst := by
  rw [Option.isSome_iff_ne_none]
  simp [ne_eq, dictGet?_eq_none_iff]

theorem dictSet_of_not_mem {α : Type} {d : List (String × α)} {k : String}
    (v : α) (h : k ∉ d.map Prod.fst) : dictSet d k v = d ++ [(k, v)] := by
  induction d with
  | nil => rfl
  | cons p d ih =>
    simp only [List.map_cons, List.mem_cons, not_or] at h
    have hp : ¬ p.1 = k := fun he => h.1 he.symm
    simp only [dictSet, beq_iff_eq, hp, if_false, List.cons_append,
      List.cons.injEq, true_and]
    exact ih h.2

theorem dictGet?_dictSet_self {α : Type} (d : List (String × α))
    (k : String) (v : α) : dictGet? (dictSet d k v) k = some v := by
  induction d with
  | nil => simp [dictSet, dictGet?_cons]
  | cons p d ih =>
    by_cases h : p.1 = k
    · simp [dictSet, h, dictGet?_cons]
    · simp only [dictSet, beq_iff_eq, h, if_false]
      rw [dictGet?_cons, if_neg h]
      exact ih

theorem dictGet?_dictSet_ne {α : Type} (d : List (String × α))
    {k k' : String} (v : α) (h : k' ≠ k) :
    dictGet? (dictSet d k v) k' = dictGet? d k' := by
  have hk : ¬ k = k' := fun he => h he.symm
  induction d with
  | nil => simp [dictSet, dictGet?_cons, dictGet?_nil, hk]
  | cons p d ih =>
    by_cases hp : p.1 = k
    · simp only [dictSet, beq_iff_eq, hp, if_true]
      rw [dictGet?_cons, dictGet?_cons, if_neg hk, if_neg (hp ▸ hk)]
    · simp only [dictSet, beq_iff_eq, hp, if_false]
      rw [dictGet?_cons, dictGet?_cons]
      by_cases hq : p.1 = k'
      · simp [hq]
      · simp only [hq, if_false]
        exact ih

theorem map_fst_dictSet_of_mem {α : Type} {d : List (String × α)}
    {k : String} (v : α) (h : k ∈ d.map Prod.fst) :
    (dictSet d k v).map Prod.fst = d.map Prod.fst := by
  induction d with
  | nil => simp at h
  | cons p d ih =>
    by_cases hp : p.1 = k
    · simp [dictSet, hp]
    · simp only [dictSet, beq_iff_eq, hp, if_false]
      simp only [List.map_cons, List.mem_cons] at h
      rcases h with h | h
      · exact absurd h.symm hp
      · simp [ih h]

theorem dictDel_cons_eq {α : Type} {p : String × α} {d : List (String × α)}
    {k : String} (h : p.1 = k) : dictDel (p :: d) k = dictDel d k := by
  simp [dictDel, List.filter_cons, h]

theorem dictDel_cons_ne {α : Type} {p : String × α} {d : List (String × α)}
    {k : String} (h : ¬ p.1 = k) : dictDel (p :: d) k = p :: dictDel d k := by
  simp [dictDel, List.filter_cons, h]

theorem map_fst_dictDel {α : Type} (d : List (String × α)) (k : String) :
    (dictDel d k).map Prod.fst =
      (d.map Prod.fst).filter (fun x => !(x == k)) := by
  induction d with
  | nil => rfl
  | cons p d ih =>
    by_cases hp : p.1 = k
    · rw [dictDel_cons_eq hp, ih]
      simp [List.filter_cons, hp]
    · rw [dictDel_cons_ne hp, List.map_cons, List.map_cons, ih]
      simp [List.filter_cons, hp]

theorem dictGet?_dictDel_self {α : Type} (d : List (String × α))
    (k : String) : dictGet? (dictDel d k) k = none := by
  rw [dictGet?_eq_none_iff, map_fst_dictDel]
  simp [List.mem_filter]

theorem dictGet?_dictDel_ne {α : Type} (d : List (String × α))
    {k k' : String} (h : k' ≠ k) :
    dictGet? (dictDel d k) k' = dictGet? d k' := by
  induction d with
  | nil => rfl
  | cons p d ih =>
    by_cases hp : p.1 = k
    · rw [dictDel_cons_eq hp, ih, dictGet?_cons,
        if_neg (by rw [hp]; exact fun hk => h hk.symm)]
    · rw [dictDel_cons_ne hp, dictGet?_cons, dictGet?_cons, ih]

/-! ## Extraction and index lemmas -/

theorem dedupFirst_loop_nodup :
    ∀ (l acc : List String), acc.Nodup →
      (l.foldl (fun acc x => if x ∈ acc then acc else acc ++ [x]) acc).Nodup := by
  intro l
  induction l with
  | nil => intro acc h; exact h
  | cons x l ih =>
    intro acc h
    simp only [List.foldl_cons]
    by_cases hx : x ∈ acc
    · rw [if_pos hx]; exact ih _ h
    · rw [if_neg hx]
      refine ih _ ?_
      simp [List.nodup_append, h, hx]

theorem dedupFirst_nodup (l : List String) : (dedupFirst l).Nodup :=
  dedupFirst_loop_nodup l [] List.nodup_nil

theorem extract_hashtags_nodup (content : String) :
    (extract_hashtags content).Nodup := dedupFirst_nodup _

theorem extract_mentions_nodup (content : String) :
    (extract_mentions content).Nodup := dedupFirst_nodup _

theorem index_hashtags_apply :
    ∀ (tags : List String) (idx : String → List String) (tid : String),
      tags.Nodup → ∀ tag, index_hashtags idx tid tags tag =
        if tag ∈ tags then idx tag ++ [tid] else idx tag := by
  intro tags
  induction tags with
  | nil => intro idx tid _ tag; simp [index_hashtags]
  | cons t ts ih =>
    intro idx tid hnd tag
    have htm : t ∉ ts := (List.nodup_cons.mp hnd).1
    have hts : ts.Nodup := (List.nodup_cons.mp hnd).2
    have hstep : index_hashtags idx tid (t :: ts) =
        index_hashtags (Function.update idx t (idx t ++ [tid])) tid ts := rfl
    rw [hstep, ih _ _ hts]
    by_cases htag : tag = t
    · subst htag
      rw [if_neg htm, Function.update_same, if_pos (List.mem_cons_self _ _)]
    · rw [Function.update_noteq htag]
      by_cases hin : tag ∈ ts
      · rw [if_pos hin, if_pos (List.mem_cons_of_mem _ hin)]
      · rw [if_neg hin, if_neg (by simp [List.mem_cons, htag, hin])]

theorem deindex_hashtags_apply :
    ∀ (tags : List String) (idx : String → List String) (tid : String),
      tags.Nodup → ∀ tag, deindex_hashtags idx tid tags tag =
        if tag ∈ tags then (idx tag).erase tid else idx tag := by
  intro tags
  induction tags with
  | nil => intro idx tid _ tag; simp [deindex_hashtags]
  | cons t ts ih =>
    intro idx tid hnd tag
    have htm : t ∉ ts := (List.nodup_cons.mp hnd).1
    have hts : ts.Nodup := (List.nodup_cons.mp hnd).2
    have hstep : deindex_hashtags idx tid (t :: ts) =
        deindex_hashtags (Function.update idx t ((idx t).erase tid)) tid ts := rfl
    rw [hstep, ih _ _ hts]
    by_cases htag : tag = t
    · subst htag
      rw [if_neg htm, Function.update_same, if_pos (List.mem_cons_self _ _)]
    · rw [Function.update_noteq htag]
      by_cases hin : tag ∈ ts
      · rw [if_pos hin, if_pos (List.mem_cons_of_mem _ hin)]
      · rw [if_neg hin, if_neg (by simp [List.mem_cons, htag, hin])]

/-! ## Error outcomes do not change the state (per operation) -/

theorem create_user_error_state (s : State) (uid now username display_name :
    String) (bio : Option String) (e : Err)
    (h : (create_user s uid now username display_name bio).1 = .error e) :
    (create_user s uid now username display_name bio).2 = s := by
  revert h
  unfold create_user
  split
  · intro _; rfl
  · dsimp only
    split
    · intro _; rfl
    · intro h; simp at h

theorem update_user_error_state (s : State) (user_id : String)
    (display_name bio : Option String) (e : Err)
    (h : (update_user s user_id display_name bio).1 = .error e) :
    (update_user s user_id display_name bio).2 = s := by
  revert h
  unfold update_user
  split
  · intro _; rfl
  · intro h; simp at h

theorem create_tweet_error_state (s : State) (tid now user_id content : String)
    (e : Err) (h : (create_tweet s tid now user_id content).1 = .error e) :
    (create_tweet s tid now user_id content).2 = s := by
  revert h
  unfold create_tweet
  split
  · intro _; rfl
  · split
    · intro _; rfl
    · intro h; simp at h

theorem create_retweet_error_state (s : State)
    (tweet_id tid now user_id : String) (e : Err)
    (h : (create_retweet s tweet_id tid now user_id).1 = .error e) :
    (create_retweet s tweet_id tid now user_id).2 = s := by
  revert h
  unfold create_retweet
  split
  · intro _; rfl
  · split
    · intro _; rfl
    · intro h; simp at h

theorem create_quote_tweet_error_state (s : State)
    (tweet_id tid now user_id content : String) (e : Err)
    (h : (create_quote_tweet s tweet_id tid now user_id content).1 = .error e) :
    (create_quote_tweet s tweet_id tid now user_id content).2 = s := by
  revert h
  unfold create_quote_tweet
  split
  · intro _; rfl
  · split
    · intro _; rfl
    · split
      · intro _; rfl
      · intro h; simp at h

theorem delete_tweet_error_state (s : State) (tweet_id : String) (e : Err)
    (h : (delete_tweet s tweet_id).1 = .error e) :
    (delete_tweet s tweet_id).2 = s := by
  revert h
  unfold delete_tweet
  split
  · intro _; rfl
  · intro h; simp at h

theorem follow_user_error_state (s : State) (user_id target_id : String)
    (e : Err) (h : (follow_user s user_id target_id).1 = .error e) :
    (follow_user s user_id target_id).2 = s := by
  revert h
  unfold follow_user
  split
  · intro _; rfl
  · split
    · intro _; rfl
    · split
      · intro _; rfl
      · split
        · intro _; rfl
        · intro h; simp at h

theorem unfollow_user_error_state (s : State) (user_id target_id : String)
    (e : Err) (h : (unfollow_user s user_id target_id).1 = .error e) :
    (unfollow_user s user_id target_id).2 = s := by
  revert h
  unfold unfollow_user
  split
  · intro _; rfl
  · split
    · intro _; rfl
    · split
      · intro _; rfl
      · intro h; simp at h

theorem like_tweet_error_state (s : State) (tweet_id user_id : String)
    (e : Err) (h : (like_tweet s tweet_id user_id).1 = .error e) :
    (like_tweet s tweet_id user_id).2 = s := by
  revert h
  unfold like_tweet
  split
  · intro _; rfl
  · by_cases hk : (dictGet? s.likes tweet_id).isSome
    · simp only [if_pos hk]
      split
      · intro _; rfl
      · intro h; simp at h
    · simp only [if_neg hk, dictGet?_dictSet_self, Option.getD_some]
      split
      · intro _
        exact absurd (Finset.not_mem_empty user_id) (by simp_all)
      · intro h; simp at h

theorem unlike_tweet_error_state (s : State) (tweet_id user_id : String)
    (e : Err) (h : (unlike_tweet s tweet_id user_id).1 = .error e) :
    (unlike_tweet s tweet_id user_id).2 = s := by
  revert h
  unfold unlike_tweet
  split
  · intro _; rfl
  · dsimp only
    split
    · intro _; rfl
    · intro h; simp at h

/-! ## View-builder projection lemmas -/

theorem build_tweet_out_id (s : State) (depth : Nat) (t : Tweet) :
    (build_tweet_out s depth t).id = t.id := by
  unfold build_tweet_out
  rfl

theorem build_tweet_out_created_at (s : State) (depth : Nat) (t : Tweet) :
    (build_tweet_out s depth t).created_at = t.created_at := by
  unfold build_tweet_out
  rfl

theorem build_tweet_out_original_tweet_id (s : State) (depth : Nat)
    (t : Tweet) :
    (build_tweet_out s depth t).original_tweet_id = t.original_tweet_id := by
  unfold build_tweet_out
  rfl

theorem build_tweet_out_original_tweet_succ (s : State) (d : Nat) (t : Tweet) :
    (build_tweet_out s (d + 1) t).original_tweet = none := by
  unfold build_tweet_out
  rcases t.original_tweet_id with - | oid <;> rfl

theorem build_tweet_out_original_tweet_zero (s : State) (t : Tweet) :
    (build_tweet_out s 0 t).original_tweet =
      match t.original_tweet_id with
      | some oid =>
        if oid = "" then none
        else (dictGet? s.tweets oid).map (build_tweet_out s 1)
      | none => none := by
  unfold build_tweet_out
  rcases t.original_tweet_id with - | oid
  · rfl
  · show (if oid = "" then none else _) = _
    by_cases h : oid = ""
    · simp [h]
    · simp only [h, if_false]
      rcases hd : dictGet? s.tweets oid with - | orig <;> simp [hd]

/-! ## Claim C4 — error atomicity of mutating operations -/

/-- C4: whenever any mutating operation (createUser, createPost including
retweet/quote, deletePost, follow, unfollow, like, unlike) returns an
error of any kind, the entire observable state is unchanged: all
validation happens before any mutation. -/
theorem mutating_error_atomicity (s : State) :
    (∀ uid now username display_name bio e,
      (create_user s uid now username display_name bio).1 = .error e →
      (create_user s uid now username display_name bio).2 = s) ∧
    (∀ tid now user_id content e,
      (create_tweet s tid now user_id content).1 = .error e →
      (create_tweet s tid now user_id content).2 = s) ∧
    (∀ tweet_id tid now user_id e,
      (create_retweet s tweet_id tid now user_id).1 = .error e →
      (create_retweet s tweet_id tid now user_id).2 = s) ∧
    (∀ tweet_id tid now user_id content e,
      (create_quote_tweet s tweet_id tid now user_id content).1 = .error e →
      (create_quote_tweet s tweet_id tid now user_id content).2 = s) ∧
    (∀ tweet_id e, (delete_tweet s tweet_id).1 = .error e →
      (delete_tweet s tweet_id).2 = s) ∧
    (∀ user_id target_id e, (follow_user s user_id target_id).1 = .error e →
      (follow_user s user_id target_id).2 = s) ∧
    (∀ user_id target_id e, (unfollow_user s user_id target_id).1 = .error e →
      (unfollow_user s user_id target_id).2 = s) ∧
    (∀ tweet_id user_id e, (like_tweet s tweet_id user_id).1 = .error e →
      (like_tweet s tweet_id user_id).2 = s) ∧
    (∀ tweet_id user_id e, (unlike_tweet s tweet_id user_id).1 = .error e →
      (unlike_tweet s tweet_id user_id).2 = s) :=
  ⟨fun _ _ _ _ _ e h => create_user_error_state s _ _ _ _ _ e h,
   fun _ _ _ _ e h => create_tweet_error_state s _ _ _ _ e h,
   fun _ _ _ _ e h => create_retweet_error_state s _ _ _ _ e h,
   fun _ _ _ _ _ e h => create_quote_tweet_error_state s _ _ _ _ _ e h,
   fun _ e h => delete_tweet_error_state s _ e h,
   fun _ _ e h => follow_user_error_state s _ _ e h,
   fun _ _ e h => unfollow_user_error_state s _ _ e h,
   fun _ _ e h => like_tweet_error_state s _ _ e h,
   fun _ _ e h => unlike_tweet_error_state s _ _ e h⟩

/-- C4 witness: following from a nonexistent user errors with `notFound`
and leaves the empty state untouched. -/
theorem mutating_error_atomicity_witness :
    (follow_user State.init "a" "b").1 = .error .notFound ∧
    (follow_user State.init "a" "b").2 = State.init :=
  ⟨rfl, (mutating_error_atomicity State.init).2.2.2.2.2.1 "a" "b" .notFound rfl⟩

/-! ## Claim C6 — 280-code-point body boundary -/

/-- C6: for an existing author, `create_tweet` (and the quote path, for
an existing original) accepts a body of exactly 280 code points and
rejects 281-or-more with `bodyTooLong`, the check happening before any
state mutation. -/
theorem body_length_boundary (s : State) (tid now user_id content : String)
    (huser : (dictGet? s.users user_id).isSome) :
    (content.length = 280 →
      ∃ t, (create_tweet s tid now user_id content).1 = .ok t) ∧
    (281 ≤ content.length →
      (create_tweet s tid now user_id content).1 = .error .bodyTooLong ∧
      (create_tweet s tid now user_id content).2 = s) ∧
    ∀ tweet_id, (dictGet? s.tweets tweet_id).isSome →
      (content.length = 280 →
        ∃ t, (create_quote_tweet s tweet_id tid now user_id content).1 =
          .ok t) ∧
      (281 ≤ content.length →
        (create_quote_tweet s tweet_id tid now user_id content).1 =
          .error .bodyTooLong ∧
        (create_quote_tweet s tweet_id tid now user_id content).2 = s) := by
  have hu : ¬ ((dictGet? s.users user_id).isNone = true) := by
    rcases h : dictGet? s.users user_id with - | u
    · rw [h] at huser; simp at huser
    · simp
  refine ⟨?_, ?_, ?_⟩
  · intro h280
    unfold create_tweet
    rw [if_neg (show ¬ content.length > 280 by omega), if_neg hu,
      if_neg (show ¬ content.length > 280 by omega)]
    exact ⟨_, rfl⟩
  · intro h281
    unfold create_tweet
    rw [if_pos (by omega)]
    exact ⟨rfl, rfl⟩
  · intro tweet_id htw
    have ht : ¬ ((dictGet? s.tweets tweet_id).isNone = true) := by
      rcases h : dictGet? s.tweets tweet_id with - | t
      · rw [h] at htw; simp at htw
      · simp
    constructor
    · intro h280
      unfold create_quote_tweet
      rw [if_neg (show ¬ content.length > 280 by omega), if_neg ht, if_neg hu,
        if_neg (show ¬ content.length > 280 by omega)]
      exact ⟨_, rfl⟩
    · intro h281
      unfold create_quote_tweet
      rw [if_pos (by omega)]
      exact ⟨rfl, rfl⟩

/-- C6 witness: in the sample state, a 280-character body is accepted and
a 281-character body is rejected without touching the state. -/
theorem body_length_boundary_witness :
    (dictGet? wState.users "u1").isSome = true ∧
    wBody280.length = 280 ∧ 281 ≤ wBody281.length ∧
    (∃ t, (create_tweet wState "t2" "t9" "u1" wBody280).1 = .ok t) ∧
    (create_tweet wState "t2" "t9" "u1" wBody281).1 = .error .bodyTooLong := by
  have hu : (dictGet? wState.users "u1").isSome = true := rfl
  have h280 : wBody280.length = 280 := by
    show (List.replicate 280 'a').length = 280
    rw [List.length_replicate]
  have h281 : wBody281.length = 281 := by
    show (List.replicate 281 'a').length = 281
    rw [List.length_replicate]
  refine ⟨hu, h280, by omega, ?_, ?_⟩
  · exact (body_length_boundary wState "t2" "t9" "u1" wBody280 hu).1 h280
  · exact ((body_length_boundary wState "t2" "t9" "u1" wBody281 hu).2.1
      (by omega)).1

/-! ## Claim C7 — dangling original embeds nothing, raises nothing -/

/-- C7: a retweet/quote whose original id no longer resolves is still
readable: `get_tweet` succeeds, the built view carries the dangling
`original_tweet_id`, and its embedded `original_tweet` is `none`. -/
theorem dangling_original_resolves_to_none (s : State) (rid oid : String)
    (r : Tweet) (hr : dictGet? s.tweets rid = some r)
    (horig : r.original_tweet_id = some oid)
    (hdangling : dictGet? s.tweets oid = none) :
    get_tweet s rid = .ok (build_tweet_out s 0 r) ∧
    (build_tweet_out s 0 r).original_tweet = none ∧
    (build_tweet_out s 0 r).original_tweet_id = some oid := by
  refine ⟨by simp [get_tweet, hr], ?_, ?_⟩
  · rw [build_tweet_out_original_tweet_zero, horig]
    by_cases h : oid = ""
    · simp [h]
    · simp [h, hdangling]
  · rw [build_tweet_out_original_tweet_id, horig]

/-- C7 witness: delete the original of the sample retweet; the retweet
still reads back with no embedded original. -/
theorem dangling_original_resolves_to_none_witness :
    dictGet? (delete_tweet wChainState "o1").2.tweets "r1" = some wRetweet ∧
    wRetweet.original_tweet_id = some "o1" ∧
    dictGet? (delete_tweet wChainState "o1").2.tweets "o1" = none ∧
    get_tweet (delete_tweet wChainState "o1").2 "r1" =
      .ok (build_tweet_out (delete_tweet wChainState "o1").2 0 wRetweet) ∧
    (build_tweet_out (delete_tweet wChainState "o1").2 0 wRetweet).original_tweet
      = none := by
  have h1 : dictGet? (delete_tweet wChainState "o1").2.tweets "r1" =
      some wRetweet := rfl
  have h2 : wRetweet.original_tweet_id = some "o1" := rfl
  have h3 : dictGet? (delete_tweet wChainState "o1").2.tweets "o1" = none := rfl
  have hmain := dangling_original_resolves_to_none
    (delete_tweet wChainState "o1").2 "r1" "o1" wRetweet h1 h2 h3
  exact ⟨h1, h2, h3, hmain.1, hmain.2.1⟩

/-! ## Claim C8 — embedding nesting capped at one level -/

/-- C8: whenever a built post view embeds an original view, that embedded
view's own `original_tweet` field is empty — the embedded original is
built at depth 1 and never expanded further, so view construction
terminates on any reference chain.  Every read operation builds its views
through `build_tweet_out` at depth 0. -/
theorem nesting_cap_one_level (s : State) (t : Tweet) (e : TweetOut)
    (h : (build_tweet_out s 0 t).original_tweet = some e) :
    e.original_tweet = none := by
  rw [build_tweet_out_original_tweet_zero] at h
  rcases ho : t.original_tweet_id with - | oid
  · rw [ho] at h; simp at h
  · rw [ho] at h
    by_cases hd : oid = ""
    · simp [hd] at h
    · simp only [hd, if_false] at h
      rcases hg : dictGet? s.tweets oid with - | orig
      · rw [hg] at h; simp at h
      · rw [hg, Option.map_some'] at h
        have he : e = build_tweet_out s 1 orig := (Option.some.inj h).symm
        rw [he]
        exact build_tweet_out_original_tweet_succ s 0 orig

/-- C8 witness: the sample retweet's view embeds the original, whose own
embedded-original field is empty. -/
theorem nesting_cap_one_level_witness :
    (build_tweet_out wChainState 0 wRetweet).original_tweet =
      some (build_tweet_out wChainState 1 wOrig) ∧
    (build_tweet_out wChainState 1 wOrig).original_tweet = none := by
  have h : (build_tweet_out wChainState 0 wRetweet).original_tweet =
      some (build_tweet_out wChainState 1 wOrig) := by
    rw [build_tweet_out_original_tweet_zero]
    rfl
  exact ⟨h, nesting_cap_one_level wChainState wRetweet _ h⟩

/-! ## Claim C9 — like does not validate the liking user -/

/-- C9: `like_tweet` checks only that the tweet exists and that the
identifier has not already liked it: any identifier `u` — registered
user or not (no lookup of `u` in the user store occurs) — is added to
the like set and counted; the only error outcomes are `notFound` (tweet)
and `alreadyLiked`. -/
theorem like_ignores_user_registration (s : State) (p u : String) :
    (∀ t, dictGet? s.tweets p = some t →
      u ∉ (dictGet? s.likes p).getD ∅ →
      (like_tweet s p u).1 = .ok (((dictGet? s.likes p).getD ∅).card + 1) ∧
      dictGet? (like_tweet s p u).2.likes p =
        some (insert u ((dictGet? s.likes p).getD ∅))) ∧
    (∀ e, (like_tweet s p u).1 = .error e →
      (e = .notFound ∧ dictGet? s.tweets p = none) ∨
      (e = .alreadyLiked ∧ u ∈ (dictGet? s.likes p).getD ∅)) := by
  constructor
  · intro t ht hu
    have hno : ¬ ((dictGet? s.tweets p).isNone = true) := by simp [ht]
    unfold like_tweet
    rw [if_neg hno]
    by_cases hk : (dictGet? s.likes p).isSome
    · simp only [if_pos hk]
      rw [if_neg hu]
      refine ⟨?_, ?_⟩
      · simp [Finset.card_insert_of_not_mem hu]
      · simp [dictGet?_dictSet_self]
    · have hkn : dictGet? s.likes p = none := by
        rcases hg : dictGet? s.likes p with - | v
        · rfl
        · rw [hg] at hk; simp at hk
      simp only [if_neg hk]
      rw [hkn]
      simp only [dictGet?_dictSet_self, Option.getD_some, Option.getD_none]
      rw [if_neg (Finset.not_mem_empty u)]
      refine ⟨by simp, ?_⟩
      simp [dictGet?_dictSet_self]
  · intro e h
    revert h
    unfold like_tweet
    split
    · intro h
      left
      refine ⟨by simpa using h.symm, ?_⟩
      rcases hg : dictGet? s.tweets p with - | t
      · rfl
      · simp_all
    · by_cases hk : (dictGet? s.likes p).isSome
      · simp only [if_pos hk]
        split
        · intro h
          right
          exact ⟨by simpa using h.symm, by assumption⟩
        · intro h; simp at h
      · have hkn : dictGet? s.likes p = none := by
          rcases hg : dictGet? s.likes p with - | v
          · rfl
          · rw [hg] at hk; simp at hk
        simp only [if_neg hk, dictGet?_dictSet_self, Option.getD_some]
        rw [if_neg (Finset.not_mem_empty u)]
        intro h; simp at h

/-- C9 witness: the unregistered identifier `ghost` can like the sample
tweet; the like count becomes 1. -/
theorem like_ignores_user_registration_witness :
    "ghost" ∉ wState.users.map Prod.fst ∧
    dictGet? wState.tweets "t1" = some wTweet ∧
    "ghost" ∉ (dictGet? wState.likes "t1").getD ∅ ∧
    (like_tweet wState "t1" "ghost").1 = .ok 1 := by
  have hm : "ghost" ∉ wState.users.map Prod.fst := by decide
  have ht : dictGet? wState.tweets "t1" = some wTweet := rfl
  have hu : "ghost" ∉ (dictGet? wState.likes "t1").getD ∅ := by decide
  have := ((like_ignores_user_registration wState "t1" "ghost").1
    wTweet ht hu).1
  exact ⟨hm, ht, hu, by simpa using this⟩

/-! ## Claim C5 — idempotent-failure delete -/

/-- C5: deleting an existing post succeeds and removes the record, the
id's occurrences in the index lists of each recorded hashtag, and the
like set; a second delete of the same id returns `notFound` and changes
nothing, so the first call's cleanup persists.  (The two hypotheses on
the index are the multiplicity invariants that hold in every reachable
state.) -/
theorem delete_post_idempotent_failure (s : State) (p : String) (t : Tweet)
    (hp : dictGet? s.tweets p = some t)
    (hnd : t.hashtags.Nodup)
    (hcount : ∀ tag ∈ t.hashtags, (s.hashtag_index tag).count p ≤ 1) :
    (delete_tweet s p).1 = .ok () ∧
    dictGet? (delete_tweet s p).2.tweets p = none ∧
    (∀ tag ∈ t.hashtags, p ∉ (delete_tweet s p).2.hashtag_index tag) ∧
    dictGet? (delete_tweet s p).2.likes p = none ∧
    (delete_tweet (delete_tweet s p).2 p).1 = .error .notFound ∧
    (delete_tweet (delete_tweet s p).2 p).2 = (delete_tweet s p).2 := by
  have hstep : delete_tweet s p =
      (.ok (),
        { s with
          hashtag_index := deindex_hashtags s.hashtag_index p t.hashtags
          likes := dictDel s.likes p
          tweets := dictDel s.tweets p }) := by
    unfold delete_tweet
    rw [hp]
  have hgone : dictGet? (delete_tweet s p).2.tweets p = none := by
    rw [hstep]
    exact dictGet?_dictDel_self s.tweets p
  have hgen : ∀ s' : State, dictGet? s'.tweets p = none →
      delete_tweet s' p = (.error .notFound, s') := by
    intro s' h'
    unfold delete_tweet
    rw [h']
  refine ⟨by rw [hstep], hgone, ?_, ?_, ?_, ?_⟩
  · intro tag htag
    rw [hstep]
    show p ∉ deindex_hashtags s.hashtag_index p t.hashtags tag
    rw [deindex_hashtags_apply t.hashtags s.hashtag_index p hnd tag,
      if_pos htag]
    have := hcount tag htag
    intro hmem
    have h1 : 0 < (s.hashtag_index tag).count p :=
      List.count_pos_iff.mpr (List.mem_of_mem_erase hmem)
    have h2 : ((s.hashtag_index tag).erase p).count p =
        (s.hashtag_index tag).count p - 1 := List.count_erase_self p _
    have h3 : 0 < ((s.hashtag_index tag).erase p).count p :=
      List.count_pos_iff.mpr hmem
    omega
  · rw [hstep]
    exact dictGet?_dictDel_self s.likes p
  · rw [hgen _ hgone]
  · rw [hgen _ hgone]

/-- C5 witness: deleting the sample tweet cleans the `x` index list and
the like set; a second delete fails with `notFound` and changes nothing. -/
theorem delete_post_idempotent_failure_witness :
    dictGet? wState.tweets "t1" = some wTweet ∧
    wTweet.hashtags.Nodup ∧
    (∀ tag ∈ wTweet.hashtags, (wState.hashtag_index tag).count "t1" ≤ 1) ∧
    (delete_tweet wState "t1").1 = .ok () ∧
    (∀ tag ∈ wTweet.hashtags,
      "t1" ∉ (delete_tweet wState "t1").2.hashtag_index tag) ∧
    (delete_tweet (delete_tweet wState "t1").2 "t1").1 = .error .notFound := by
  have hp : dictGet? wState.tweets "t1" = some wTweet := rfl
  have hnd : wTweet.hashtags.Nodup := by decide
  have hcount : ∀ tag ∈ wTweet.hashtags,
      (wState.hashtag_index tag).count "t1" ≤ 1 := by decide
  have hmain := delete_post_idempotent_failure wState "t1" wTweet hp hnd hcount
  exact ⟨hp, hnd, hcount, hmain.1, hmain.2.2.1, hmain.2.2.2.2.1⟩

/-! ## Operations that never touch the user store -/

theorem create_tweet_users_eq (s : State) (tid now user_id content : String) :
    (create_tweet s tid now user_id content).2.users = s.users := by
  unfold create_tweet
  split_ifs <;> rfl

theorem create_retweet_users_eq (s : State)
    (tweet_id tid now user_id : String) :
    (create_retweet s tweet_id tid now user_id).2.users = s.users := by
  unfold create_retweet
  split_ifs <;> rfl

theorem create_quote_tweet_users_eq (s : State)
    (tweet_id tid now user_id content : String) :
    (create_quote_tweet s tweet_id tid now user_id content).2.users =
      s.users := by
  unfold create_quote_tweet
  split_ifs <;> rfl

theorem delete_tweet_users_eq (s : State) (tweet_id : String) :
    (delete_tweet s tweet_id).2.users = s.users := by
  unfold delete_tweet
  split <;> rfl

theorem follow_user_users_eq (s : State) (user_id target_id : String) :
    (follow_user s user_id target_id).2.users = s.users := by
  unfold follow_user
  split_ifs <;> rfl

theorem unfollow_user_users_eq (s : State) (user_id target_id : String) :
    (unfollow_user s user_id target_id).2.users = s.users := by
  unfold unfollow_user
  split_ifs <;> rfl

theorem like_tweet_users_eq (s : State) (tweet_id user_id : String) :
    (like_tweet s tweet_id user_id).2.users = s.users := by
  unfold like_tweet
  split
  · rfl
  · by_cases hk : (dictGet? s.likes tweet_id).isSome
    · simp only [if_pos hk]
      split <;> rfl
    · simp only [if_neg hk]
      split <;> rfl

theorem unlike_tweet_users_eq (s : State) (tweet_id user_id : String) :
    (unlike_tweet s tweet_id user_id).2.users = s.users := by
  unfold unlike_tweet
  split
  · rfl
  · dsimp only
    split <;> rfl

/-- A successful `UserCreate` validation yields a non-empty display name. -/
theorem UserCreate.validate_display_nonempty {username display_name : String}
    {bio : Option String} {u d : String} {b : Option String}
    (h : UserCreate.validate username display_name bio = some (u, d, b)) :
    d ≠ "" := by
  revert h
  unfold UserCreate.validate
  dsimp only
  by_cases h1 : pyStrip username = ""
  · rw [if_pos h1]; intro h; cases h
  · rw [if_neg h1]
    by_cases h2 : pyStrip display_name = ""
    · rw [if_pos h2]; intro h; cases h
    · rw [if_neg h2]
      intro h
      cases h
      exact h2

/-! ## Claim C3 — display-name non-emptiness (corrected) -/

/-- C3 counterexample: `update_user` applies a supplied `display_name`
without validation, so updating with the empty string succeeds (HTTP 200)
and the reachable state `cS1` stores a user whose display name is empty —
refuting the claimed invariant. -/
theorem display_name_empty_update_counterexample :
    (update_user cS0 "u1" (some "") none).1.map User.display_name =
      .ok "" ∧
    Reachable cS1 ∧
    (dictGet? cS1.users "u1").map User.display_name = some "" := by
  refine ⟨rfl, ?_, rfl⟩
  show ReachableP (fun _ => True) cS1
  exact .step_update_user "u1" (some "") none
    (.step_create_user "u1" "t0" "alice" "Alice" none .init (by simp [State.init]))
    trivial

/-- C3 amended: `create_user` stores a stripped, non-empty display name,
but `update_user` stores a supplied display name verbatim; the
non-emptiness invariant therefore holds exactly for states reachable by
sequences in which every `update_user` payload's display name, when
supplied, is non-empty. -/
theorem display_name_nonempty_amended (s : State)
    (h : ReachableP NonemptyDisplayPayload s) : DisplayNamesNonempty s := by
  induction h with
  | init =>
    intro uid u hu
    cases hu
  | step_create_user uid now username display_name bio hr hfresh ih =>
    intro uid' u' hu'
    revert hu'
    unfold create_user
    split
    · exact fun hu' => ih uid' u' hu'
    · dsimp only
      split
      · exact fun hu' => ih uid' u' hu'
      · rename_i vu vd vb heqv hneg
        dsimp only
        by_cases he : uid' = uid
        · subst he
          rw [dictGet?_dictSet_self]
          intro hu'
          cases hu'
          exact UserCreate.validate_display_nonempty heqv
        · rw [dictGet?_dictSet_ne _ _ he]
          exact fun hu' => ih uid' u' hu'
  | step_update_user user_id display_name bio hr hP ih =>
    intro uid' u' hu'
    revert hu'
    unfold update_user
    split
    · exact fun hu' => ih uid' u' hu'
    · rename_i user heq
      dsimp only
      by_cases he : uid' = user_id
      · subst he
        rcases display_name with - | d
        · rcases bio with - | b
          · rw [dictGet?_dictSet_self]
            intro hu'
            cases hu'
            exact ih _ user heq
          · rw [dictGet?_dictSet_self]
            intro hu'
            cases hu'
            exact ih _ user heq
        · rcases bio with - | b
          · rw [dictGet?_dictSet_self]
            intro hu'
            cases hu'
            exact hP d rfl
          · rw [dictGet?_dictSet_self]
            intro hu'
            cases hu'
            exact hP d rfl
      · rw [dictGet?_dictSet_ne _ _ he]
        exact fun hu' => ih uid' u' hu'
  | step_create_tweet tid now user_id content hr hfresh ih =>
    intro uid u hu
    rw [create_tweet_users_eq] at hu
    exact ih uid u hu
  | step_create_retweet tweet_id tid now user_id hr hfresh ih =>
    intro uid u hu
    rw [create_retweet_users_eq] at hu
    exact ih uid u hu
  | step_create_quote_tweet tweet_id tid now user_id content hr hfresh ih =>
    intro uid u hu
    rw [create_quote_tweet_users_eq] at hu
    exact ih uid u hu
  | step_delete_tweet tweet_id hr ih =>
    intro uid u hu
    rw [delete_tweet_users_eq] at hu
    exact ih uid u hu
  | step_follow_user user_id target_id hr ih =>
    intro uid u hu
    rw [follow_user_users_eq] at hu
    exact ih uid u hu
  | step_unfollow_user user_id target_id hr ih =>
    intro uid u hu
    rw [unfollow_user_users_eq] at hu
    exact ih uid u hu
  | step_like_tweet tweet_id user_id hr ih =>
    intro uid u hu
    rw [like_tweet_users_eq] at hu
    exact ih uid u hu
  | step_unlike_tweet tweet_id user_id hr ih =>
    intro uid u hu
    rw [unlike_tweet_users_eq] at hu
    exact ih uid u hu

/-- C3 amended witness: after registering `u1` and updating only the bio,
the stored display name is still non-empty. -/
theorem display_name_nonempty_amended_witness :
    ReachableP NonemptyDisplayPayload
      (update_user cS0 "u1" none (some "new bio")).2 ∧
    ((dictGet? (update_user cS0 "u1" none (some "new bio")).2.users "u1").map
      (fun u => u.display_name = "") ≠ some True) := by
  have hreach : ReachableP NonemptyDisplayPayload
      (update_user cS0 "u1" none (some "new bio")).2 :=
    .step_update_user "u1" none (some "new bio")
      (.step_create_user "u1" "t0" "alice" "Alice" none .init
        (by simp [State.init]))
      (fun d hd => by cases hd)
  refine ⟨hreach, ?_⟩
  have hinv := display_name_nonempty_amended _ hreach
  rcases hg : dictGet? (update_user cS0 "u1" none (some "new bio")).2.users
      "u1" with - | u
  · simp
  · have := hinv "u1" u hg
    simp [this]

/-! ## The state invariant `Good` holds in every reachable state -/

theorem mem_map_fst_of_dictGet? {α : Type} {d : List (String × α)}
    {k : String} {v : α} (h : dictGet? d k = some v) :
    k ∈ d.map Prod.fst :=
  (dictGet?_isSome_iff d k).mp (by rw [h]; rfl)

theorem good_init : Good State.init := by
  refine ⟨List.nodup_nil, ?_, ?_, ?_, ?_⟩
  · intro a b
    simp [State.init]
  · intro a b hb
    simp [State.init] at hb
  · intro tid t ht
    simp [State.init, dictGet?_nil] at ht
  · intro tag
    refine ⟨List.nodup_nil, ?_, ?_⟩ <;> simp [State.init]

theorem like_tweet_good (s : State) (p u : String) (h : Good s) :
    Good (like_tweet s p u).2 := by
  unfold like_tweet
  split
  · exact h
  · by_cases hk : (dictGet? s.likes p).isSome
    · simp only [if_pos hk]
      split
      · exact h
      · exact h
    · simp only [if_neg hk]
      split
      · exact h
      · exact h

theorem unlike_tweet_good (s : State) (p u : String) (h : Good s) :
    Good (unlike_tweet s p u).2 := by
  unfold unlike_tweet
  split
  · exact h
  · dsimp only
    split
    · exact h
    · exact h

theorem update_user_good (s : State) (user_id : String)
    (display_name bio : Option String) (h : Good s) :
    Good (update_user s user_id display_name bio).2 := by
  unfold update_user
  split
  · exact h
  · rename_i user heq
    dsimp only
    obtain ⟨htn, hsym, hedge, hrec, hidx⟩ := h
    refine ⟨htn, hsym, ?_, hrec, hidx⟩
    intro a b hab
    obtain ⟨ha, hb⟩ := hedge a b hab
    constructor
    · by_cases he : a = user_id
      · subst he
        rw [dictGet?_dictSet_self]
        rfl
      · rw [dictGet?_dictSet_ne _ _ he]
        exact ha
    · by_cases he : b = user_id
      · subst he
        rw [dictGet?_dictSet_self]
        rfl
      · rw [dictGet?_dictSet_ne _ _ he]
        exact hb

theorem create_user_good (s : State) (uid now username display_name : String)
    (bio : Option String) (h : Good s)
    (hfresh : uid ∉ s.users.map Prod.fst) :
    Good (create_user s uid now username display_name bio).2 := by
  unfold create_user
  split
  · exact h
  · dsimp only
    split
    · exact h
    · obtain ⟨htn, hsym, hedge, hrec, hidx⟩ := h
      have huid : dictGet? s.users uid = none :=
        (dictGet?_eq_none_iff _ _).mpr hfresh
      have hnotin : ∀ a, uid ∉ s.following a := by
        intro a ha
        have := (hedge a uid ha).2
        rw [huid] at this
        simp at this
      have hnotout : ∀ b, b ∉ s.following uid := by
        intro b hb
        have := (hedge uid b hb).1
        rw [huid] at this
        simp at this
      refine ⟨htn, ?_, ?_, hrec, hidx⟩
      · intro a b
        simp only [Function.update_apply]
        by_cases ha : a = uid <;> by_cases hb : b = uid
        · rw [if_pos ha, if_pos hb]
          simp
        · rw [if_pos ha, if_neg hb]
          constructor
          · intro hmem
            exact absurd hmem (Finset.not_mem_empty b)
          · intro hmem
            have hbf := (hsym a b).mpr hmem
            rw [ha] at hbf
            exact absurd hbf (hnotout b)
        · rw [if_neg ha, if_pos hb]
          constructor
          · intro hmem
            have huidmem : uid ∈ s.following a := by
              rw [← hb]
              exact hmem
            exact absurd huidmem (hnotin a)
          · intro hmem
            exact absurd hmem (Finset.not_mem_empty a)
        · rw [if_neg ha, if_neg hb]
          exact hsym a b
      · intro a b
        simp only [Function.update_apply]
        by_cases ha : a = uid
        · rw [if_pos ha]
          intro hmem
          exact absurd hmem (Finset.not_mem_empty b)
        · rw [if_neg ha]
          intro hmem
          obtain ⟨hA, hB⟩ := hedge a b hmem
          constructor
          · rw [dictGet?_dictSet_ne _ _ ha]
            exact hA
          · by_cases hbe : b = uid
            · rw [hbe, dictGet?_dictSet_self]
              rfl
            · rw [dictGet?_dictSet_ne _ _ hbe]
              exact hB

theorem follow_user_good (s : State) (user_id target_id : String)
    (h : Good s) : Good (follow_user s user_id target_id).2 := by
  unfold follow_user
  by_cases h1 : (dictGet? s.users user_id).isNone = true
  · rw [if_pos h1]
    exact h
  · rw [if_neg h1]
    by_cases h2 : (dictGet? s.users target_id).isNone = true
    · rw [if_pos h2]
      exact h
    · rw [if_neg h2]
      by_cases h3 : user_id = target_id
      · rw [if_pos h3]
        exact h
      · rw [if_neg h3]
        by_cases h4 : target_id ∈ s.following user_id
        · rw [if_pos h4]
          exact h
        · rw [if_neg h4]
          obtain ⟨htn, hsym, hedge, hrec, hidx⟩ := h
          have hu : (dictGet? s.users user_id).isSome = true := by
            rcases hg : dictGet? s.users user_id with - | u
            · rw [hg] at h1; simp at h1
            · rfl
          have ht : (dictGet? s.users target_id).isSome = true := by
            rcases hg : dictGet? s.users target_id with - | u
            · rw [hg] at h2; simp at h2
            · rfl
          refine ⟨htn, ?_, ?_, hrec, hidx⟩
          · intro a b
            simp only [Function.update_apply]
            by_cases ha : a = user_id <;> by_cases hb : b = target_id
            · rw [if_pos ha, if_pos hb]
              simp [ha, hb]
            · rw [if_pos ha, if_neg hb]
              simp only [Finset.mem_insert, hb, false_or]
              rw [ha]
              exact hsym user_id b
            · rw [if_neg ha, if_pos hb]
              simp only [Finset.mem_insert, ha, false_or]
              rw [hb]
              exact hsym a target_id
            · rw [if_neg ha, if_neg hb]
              exact hsym a b
          · intro a b
            simp only [Function.update_apply]
            by_cases ha : a = user_id
            · rw [if_pos ha]
              intro hmem
              rw [ha]
              rcases Finset.mem_insert.mp hmem with hbe | hmem
              · rw [hbe]
                exact ⟨hu, ht⟩
              · exact hedge user_id b hmem
            · rw [if_neg ha]
              exact hedge a b

theorem unfollow_user_good (s : State) (user_id target_id : String)
    (h : Good s) : Good (unfollow_user s user_id target_id).2 := by
  unfold unfollow_user
  by_cases h1 : (dictGet? s.users user_id).isNone = true
  · rw [if_pos h1]
    exact h
  · rw [if_neg h1]
    by_cases h2 : (dictGet? s.users target_id).isNone = true
    · rw [if_pos h2]
      exact h
    · rw [if_neg h2]
      by_cases h3 : target_id ∉ s.following user_id
      · rw [if_pos h3]
        exact h
      · rw [if_neg h3]
        obtain ⟨htn, hsym, hedge, hrec, hidx⟩ := h
        refine ⟨htn, ?_, ?_, hrec, hidx⟩
        · intro a b
          simp only [Function.update_apply]
          by_cases ha : a = user_id <;> by_cases hb : b = target_id
          · rw [if_pos ha, if_pos hb]
            simp [Finset.mem_erase, ha, hb]
          · rw [if_pos ha, if_neg hb]
            simp only [Finset.mem_erase, ne_eq, hb, not_false_eq_true,
              true_and]
            rw [ha]
            exact hsym user_id b
          · rw [if_neg ha, if_pos hb]
            simp only [Finset.mem_erase, ne_eq, ha, not_false_eq_true,
              true_and]
            rw [hb]
            exact hsym a target_id
          · rw [if_neg ha, if_neg hb]
            exact hsym a b
        · intro a b
          simp only [Function.update_apply]
          by_cases ha : a = user_id
          · rw [if_pos ha]
            intro hmem
            rw [ha]
            exact hedge user_id b (Finset.mem_of_mem_erase hmem)
          · rw [if_neg ha]
            exact hedge a b

theorem delete_tweet_good (s : State) (p : String) (h : Good s) :
    Good (delete_tweet s p).2 := by
  unfold delete_tweet
  split
  · exact h
  · rename_i t hget
    obtain ⟨htn, hsym, hedge, hrec, hidx⟩ := h
    have htagnd : t.hashtags.Nodup := hrec p t hget
    have hfe : ((dictDel s.tweets p).map Prod.fst) =
        (s.tweets.map Prod.fst).erase p := by
      rw [map_fst_dictDel, List.Nodup.erase_eq_filter htn]
      rfl
    refine ⟨?_, hsym, hedge, ?_, ?_⟩
    · rw [hfe]
      exact htn.erase p
    · intro tid' t' hget'
      by_cases he : tid' = p
      · subst he
        rw [dictGet?_dictDel_self] at hget'
        cases hget'
      · rw [dictGet?_dictDel_ne _ he] at hget'
        exact hrec tid' t' hget'
    · intro tag
      show (deindex_hashtags s.hashtag_index p t.hashtags tag).Nodup ∧
        (∀ tid' ∈ deindex_hashtags s.hashtag_index p t.hashtags tag,
          ∃ t', dictGet? (dictDel s.tweets p) tid' = some t' ∧
            tag ∈ t'.hashtags) ∧
        (deindex_hashtags s.hashtag_index p t.hashtags tag).Sublist
          ((dictDel s.tweets p).map Prod.fst)
      rw [deindex_hashtags_apply t.hashtags s.hashtag_index p htagnd tag]
      by_cases htag : tag ∈ t.hashtags
      · rw [if_pos htag]
        refine ⟨((hidx tag).1).erase p, ?_, ?_⟩
        · intro x hx
          have hxne : x ≠ p ∧ x ∈ s.hashtag_index tag :=
            (List.Nodup.mem_erase_iff (hidx tag).1).mp hx
          obtain ⟨t', hg', htg'⟩ := (hidx tag).2.1 x hxne.2
          exact ⟨t', by rw [dictGet?_dictDel_ne _ hxne.1]; exact hg', htg'⟩
        · rw [hfe]
          exact List.Sublist.erase p (hidx tag).2.2
      · rw [if_neg htag]
        have hpnot : p ∉ s.hashtag_index tag := by
          intro hp
          obtain ⟨t', hg', htg'⟩ := (hidx tag).2.1 p hp
          rw [hget] at hg'
          cases hg'
          exact htag htg'
        refine ⟨(hidx tag).1, ?_, ?_⟩
        · intro x hx
          have hxne : x ≠ p := fun he => hpnot (he ▸ hx)
          obtain ⟨t', hg', htg'⟩ := (hidx tag).2.1 x hx
          exact ⟨t', by rw [dictGet?_dictDel_ne _ hxne]; exact hg', htg'⟩
        · rw [hfe, ← List.erase_of_not_mem hpnot]
          exact List.Sublist.erase p (hidx tag).2.2

theorem create_tweet_good (s : State) (tid now user_id content : String)
    (h : Good s) (hfresh : tid ∉ s.tweets.map Prod.fst) :
    Good (create_tweet s tid now user_id content).2 := by
  unfold create_tweet
  split
  · exact h
  · split
    · exact h
    · obtain ⟨htn, hsym, hedge, hrec, hidx⟩ := h
      dsimp only
      have hmap : ∀ T : Tweet, (dictSet s.tweets tid T).map Prod.fst =
          s.tweets.map Prod.fst ++ [tid] := by
        intro T
        rw [dictSet_of_not_mem _ hfresh, List.map_append]
        rfl
      refine ⟨?_, hsym, hedge, ?_, ?_⟩
      · rw [hmap]
        simp [List.nodup_append, htn, hfresh]
      · intro tid' t' hget'
        by_cases he : tid' = tid
        · subst he
          rw [dictGet?_dictSet_self] at hget'
          cases hget'
          exact extract_hashtags_nodup content
        · rw [dictGet?_dictSet_ne _ _ he] at hget'
          exact hrec tid' t' hget'
      · intro tag
        show (index_hashtags s.hashtag_index tid
            (extract_hashtags content) tag).Nodup ∧
          (∀ tid' ∈ index_hashtags s.hashtag_index tid
              (extract_hashtags content) tag,
            ∃ t', dictGet? (dictSet s.tweets tid
              ⟨tid, "tweet", user_id, some content, now,
            extract_hashtags content, extract_mentions content, none⟩) tid' = some t' ∧
              tag ∈ t'.hashtags) ∧
          (index_hashtags s.hashtag_index tid
            (extract_hashtags content) tag).Sublist
            ((dictSet s.tweets tid
              ⟨tid, "tweet", user_id, some content, now,
            extract_hashtags content, extract_mentions content, none⟩).map Prod.fst)
        rw [index_hashtags_apply (extract_hashtags content) s.hashtag_index tid
          (extract_hashtags_nodup content) tag]
        have htid_not : tid ∉ s.hashtag_index tag := by
          intro hm
          obtain ⟨t', hg', -⟩ := (hidx tag).2.1 tid hm
          exact hfresh (mem_map_fst_of_dictGet? hg')
        by_cases htag : tag ∈ extract_hashtags content
        · rw [if_pos htag]
          refine ⟨?_, ?_, ?_⟩
          · simp [List.nodup_append, (hidx tag).1, htid_not]
          · intro x hx
            rcases List.mem_append.mp hx with hx | hx
            · obtain ⟨t', hg', htg'⟩ := (hidx tag).2.1 x hx
              have hne : x ≠ tid := fun he => htid_not (he ▸ hx)
              exact ⟨t', by rw [dictGet?_dictSet_ne _ _ hne]; exact hg', htg'⟩
            · simp only [List.mem_singleton] at hx
              subst hx
              exact ⟨_, dictGet?_dictSet_self _ _ _, htag⟩
          · rw [hmap]
            exact List.Sublist.append (hidx tag).2.2 (List.Sublist.refl _)
        · rw [if_neg htag]
          refine ⟨(hidx tag).1, ?_, ?_⟩
          · intro x hx
            obtain ⟨t', hg', htg'⟩ := (hidx tag).2.1 x hx
            have hne : x ≠ tid := fun he => htid_not (he ▸ hx)
            exact ⟨t', by rw [dictGet?_dictSet_ne _ _ hne]; exact hg', htg'⟩
          · rw [hmap]
            exact ((hidx tag).2.2).trans (List.sublist_append_left _ _)

theorem create_retweet_good (s : State) (tweet_id tid now user_id : String)
    (h : Good s) (hfresh : tid ∉ s.tweets.map Prod.fst) :
    Good (create_retweet s tweet_id tid now user_id).2 := by
  unfold create_retweet
  split
  · exact h
  · split
    · exact h
    · obtain ⟨htn, hsym, hedge, hrec, hidx⟩ := h
      dsimp only
      have hmap : ∀ T : Tweet, (dictSet s.tweets tid T).map Prod.fst =
          s.tweets.map Prod.fst ++ [tid] := by
        intro T
        rw [dictSet_of_not_mem _ hfresh, List.map_append]
        rfl
      refine ⟨?_, hsym, hedge, ?_, ?_⟩
      · rw [hmap]
        simp [List.nodup_append, htn, hfresh]
      · intro tid' t' hget'
        by_cases he : tid' = tid
        · subst he
          rw [dictGet?_dictSet_self] at hget'
          cases hget'
          exact List.nodup_nil
        · rw [dictGet?_dictSet_ne _ _ he] at hget'
          exact hrec tid' t' hget'
      · intro tag
        refine ⟨(hidx tag).1, ?_, ?_⟩
        · intro x hx
          obtain ⟨t', hg', htg'⟩ := (hidx tag).2.1 x hx
          have hne : x ≠ tid := fun he =>
            hfresh (he ▸ mem_map_fst_of_dictGet? hg')
          exact ⟨t', by rw [dictGet?_dictSet_ne _ _ hne]; exact hg', htg'⟩
        · rw [hmap]
          exact ((hidx tag).2.2).trans (List.sublist_append_left _ _)

theorem create_quote_tweet_good (s : State)
    (tweet_id tid now user_id content : String)
    (h : Good s) (hfresh : tid ∉ s.tweets.map Prod.fst) :
    Good (create_quote_tweet s tweet_id tid now user_id content).2 := by
  unfold create_quote_tweet
  split
  · exact h
  · split
    · exact h
    · split
      · exact h
      · obtain ⟨htn, hsym, hedge, hrec, hidx⟩ := h
        dsimp only
        have hmap : ∀ T : Tweet, (dictSet s.tweets tid T).map Prod.fst =
            s.tweets.map Prod.fst ++ [tid] := by
          intro T
          rw [dictSet_of_not_mem _ hfresh, List.map_append]
          rfl
        refine ⟨?_, hsym, hedge, ?_, ?_⟩
        · rw [hmap]
          simp [List.nodup_append, htn, hfresh]
        · intro tid' t' hget'
          by_cases he : tid' = tid
          · subst he
            rw [dictGet?_dictSet_self] at hget'
            cases hget'
            exact extract_hashtags_nodup content
          · rw [dictGet?_dictSet_ne _ _ he] at hget'
            exact hrec tid' t' hget'
        · intro tag
          show (index_hashtags s.hashtag_index tid
              (extract_hashtags content) tag).Nodup ∧
            (∀ tid' ∈ index_hashtags s.hashtag_index tid
                (extract_hashtags content) tag,
              ∃ t', dictGet? (dictSet s.tweets tid
                ⟨tid, "quote", user_id, some content, now,
              extract_hashtags content, extract_mentions content,
              some tweet_id⟩) tid' = some t' ∧
                tag ∈ t'.hashtags) ∧
            (index_hashtags s.hashtag_index tid
              (extract_hashtags content) tag).Sublist
              ((dictSet s.tweets tid
                ⟨tid, "quote", user_id, some content, now,
              extract_hashtags content, extract_mentions content,
              some tweet_id⟩).map Prod.fst)
          rw [index_hashtags_apply (extract_hashtags content) s.hashtag_index
            tid (extract_hashtags_nodup content) tag]
          have htid_not : tid ∉ s.hashtag_index tag := by
            intro hm
            obtain ⟨t', hg', -⟩ := (hidx tag).2.1 tid hm
            exact hfresh (mem_map_fst_of_dictGet? hg')
          by_cases htag : tag ∈ extract_hashtags content
          · rw [if_pos htag]
            refine ⟨?_, ?_, ?_⟩
            · simp [List.nodup_append, (hidx tag).1, htid_not]
            · intro x hx
              rcases List.mem_append.mp hx with hx | hx
              · obtain ⟨t', hg', htg'⟩ := (hidx tag).2.1 x hx
                have hne : x ≠ tid := fun he => htid_not (he ▸ hx)
                exact ⟨t', by rw [dictGet?_dictSet_ne _ _ hne]; exact hg',
                  htg'⟩
              · simp only [List.mem_singleton] at hx
                subst hx
                exact ⟨_, dictGet?_dictSet_self _ _ _, htag⟩
            · rw [hmap]
              exact List.Sublist.append (hidx tag).2.2 (List.Sublist.refl _)
          · rw [if_neg htag]
            refine ⟨(hidx tag).1, ?_, ?_⟩
            · intro x hx
              obtain ⟨t', hg', htg'⟩ := (hidx tag).2.1 x hx
              have hne : x ≠ tid := fun he => htid_not (he ▸ hx)
              exact ⟨t', by rw [dictGet?_dictSet_ne _ _ hne]; exact hg', htg'⟩
            · rw [hmap]
              exact ((hidx tag).2.2).trans (List.sublist_append_left _ _)

/-- Every reachable state (under any payload restriction) satisfies the
engine invariant. -/
theorem reachableP_good {P : Option String → Prop} (s : State)
    (h : ReachableP P s) : Good s := by
  induction h with
  | init => exact good_init
  | step_create_user uid now username display_name bio hr hfresh ih =>
    exact create_user_good _ uid now username display_name bio ih hfresh
  | step_update_user user_id display_name bio hr hP ih =>
    exact update_user_good _ user_id display_name bio ih
  | step_create_tweet tid now user_id content hr hfresh ih =>
    exact create_tweet_good _ tid now user_id content ih hfresh
  | step_create_retweet tweet_id tid now user_id hr hfresh ih =>
    exact create_retweet_good _ tweet_id tid now user_id ih hfresh
  | step_create_quote_tweet tweet_id tid now user_id content hr hfresh ih =>
    exact create_quote_tweet_good _ tweet_id tid now user_id content ih hfresh
  | step_delete_tweet tweet_id hr ih =>
    exact delete_tweet_good _ tweet_id ih
  | step_follow_user user_id target_id hr ih =>
    exact follow_user_good _ user_id target_id ih
  | step_unfollow_user user_id target_id hr ih =>
    exact unfollow_user_good _ user_id target_id ih
  | step_like_tweet tweet_id user_id hr ih =>
    exact like_tweet_good _ tweet_id user_id ih
  | step_unlike_tweet tweet_id user_id hr ih =>
    exact unlike_tweet_good _ tweet_id user_id ih

/-! ## Claim C1 — follow-graph symmetry invariant -/

/-- C1: in every state reachable by any sequence of operations — in
particular any sequence of createUser, follow and unfollow, with both
success and error outcomes kept — the two mirrored adjacency views agree:
`b ∈ following a ↔ a ∈ followers b` for all users `a`, `b`. -/
theorem follow_graph_symmetry (s : State) (h : Reachable s) :
    ∀ a b, b ∈ s.following a ↔ a ∈ s.followers b :=
  (reachableP_good s h).2.1

/-- C1 witness: the concrete reachable state in which `a` follows `b`. -/
theorem follow_graph_symmetry_witness :
    ("b" ∈ wR3.following "a") ↔ ("a" ∈ wR3.followers "b") :=
  follow_graph_symmetry wR3
    (.step_follow_user "a" "b"
      (.step_create_user "b" "t2" "bob" "Bob" none
        (.step_create_user "a" "t1" "alice" "Alice" none .init
          (by simp [State.init]))
        (by decide)))
    "a" "b"

/-! ## Claim C10 — hashtag-index multiplicity and order invariant -/

/-- C10: in every reachable state each tag's index list is duplicate-free
(each post id occurs at most once), every listed id resolves to a live
tweet recording the tag, and the list is a subsequence of the tweet
store's insertion-ordered key sequence (post-creation order); moreover a
successful `create_tweet`/`create_quote_tweet` appends the fresh id
exactly once to exactly the lists of its extracted tags .  The
reachability induction includes `delete_tweet` steps, so deletion
preserves all three index properties. -/
theorem hashtag_index_invariant (s : State) (h : Reachable s) :
    HashtagIndexInv s ∧
    (∀ tid now user_id content tag,
      ((create_tweet s tid now user_id content).1.isOk →
        (create_tweet s tid now user_id content).2.hashtag_index tag =
          if tag ∈ extract_hashtags content then s.hashtag_index tag ++ [tid]
          else s.hashtag_index tag)) ∧
    (∀ tweet_id tid now user_id content tag,
      ((create_quote_tweet s tweet_id tid now user_id content).1.isOk →
        (create_quote_tweet s tweet_id tid now user_id
            content).2.hashtag_index tag =
          if tag ∈ extract_hashtags content then s.hashtag_index tag ++ [tid]
          else s.hashtag_index tag)) := by
  refine ⟨(reachableP_good s h).2.2.2.2, ?_, ?_⟩
  · intro tid now user_id content tag
    unfold create_tweet
    split
    · intro hok
      simp [Except.isOk, Except.toBool] at hok
    · split
      · intro hok
        simp [Except.isOk, Except.toBool] at hok
      · intro _
        show index_hashtags s.hashtag_index tid (extract_hashtags content)
          tag = _
        rw [index_hashtags_apply (extract_hashtags content) s.hashtag_index
          tid (extract_hashtags_nodup content) tag]
  · intro tweet_id tid now user_id content tag
    unfold create_quote_tweet
    split
    · intro hok
      simp [Except.isOk, Except.toBool] at hok
    · split
      · intro hok
        simp [Except.isOk, Except.toBool] at hok
      · split
        · intro hok
          simp [Except.isOk, Except.toBool] at hok
        · intro _
          show index_hashtags s.hashtag_index tid (extract_hashtags content)
            tag = _
          rw [index_hashtags_apply (extract_hashtags content) s.hashtag_index
            tid (extract_hashtags_nodup content) tag]

/-- C10 witness: the reachable state `wR4` (a posted tweet carrying
hashtag `x`) satisfies the index invariant; in particular the list for
tag `x` is duplicate-free and a subsequence of the store's key order. -/
theorem hashtag_index_invariant_witness :
    (wR4.hashtag_index "x").Nodup ∧
    (wR4.hashtag_index "x").Sublist (wR4.tweets.map Prod.fst) := by
  have hreach : Reachable wR4 :=
    .step_create_tweet "p1" "t3" "a" "hello #x"
      (.step_follow_user "a" "b"
        (.step_create_user "b" "t2" "bob" "Bob" none
          (.step_create_user "a" "t1" "alice" "Alice" none .init
            (by simp [State.init]))
          (by decide)))
      (by decide)
  have h := (hashtag_index_invariant wR4 hreach).1 "x"
  exact ⟨h.1, h.2.2⟩

/-! ## Stable descending sort: permutation, sortedness, tie-break -/

theorem insortDesc_perm {α : Type} (key : α → String) (x : α) :
    ∀ l : List α, (insortDesc key x l).Perm (x :: l) := by
  intro l
  induction l with
  | nil => exact List.Perm.refl _
  | cons y ys ih =>
    by_cases h : key x ≤ key y
    · simp only [insortDesc, if_pos h]
      exact (ih.cons y).trans (List.Perm.swap x y ys)
    · simp only [insortDesc, if_neg h]
      exact List.Perm.refl _

theorem insortDesc_sorted {α : Type} (key : α → String) (x : α) :
    ∀ l : List α, l.Pairwise (fun a b => key b ≤ key a) →
      (insortDesc key x l).Pairwise (fun a b => key b ≤ key a) := by
  intro l
  induction l with
  | nil =>
    intro _
    exact List.pairwise_singleton _ _
  | cons y ys ih =>
    intro h
    obtain ⟨hy, hys⟩ := List.pairwise_cons.mp h
    by_cases hle : key x ≤ key y
    · simp only [insortDesc, if_pos hle]
      refine List.pairwise_cons.mpr ⟨?_, ih hys⟩
      intro z hz
      rcases List.mem_cons.mp ((insortDesc_perm key x ys).mem_iff.mp hz)
        with hzx | hz
      · rw [hzx]
        exact hle
      · exact hy z hz
    · simp only [insortDesc, if_neg hle]
      have hyx : key y ≤ key x := le_of_lt (lt_of_not_le hle)
      refine List.pairwise_cons.mpr ⟨?_, h⟩
      intro z hz
      rcases List.mem_cons.mp hz with hzy | hz
      · rw [hzy]
        exact hyx
      · exact le_trans (hy z hz) hyx

theorem insortDesc_pairwise {α : Type} {R : α → α → Prop} (key : α → String)
    (x : α) : ∀ l : List α,
    l.Pairwise (fun a b => key b ≤ key a) → l.Pairwise R →
    (∀ y ∈ l, key x ≤ key y → R y x) →
    (∀ y ∈ l, ¬ key x ≤ key y → R x y) →
    (insortDesc key x l).Pairwise R := by
  intro l
  induction l with
  | nil =>
    intro _ _ _ _
    exact List.pairwise_singleton _ _
  | cons y ys ih =>
    intro hs hR hyx hxy
    obtain ⟨hsy, hsys⟩ := List.pairwise_cons.mp hs
    obtain ⟨hRy, hRys⟩ := List.pairwise_cons.mp hR
    by_cases hle : key x ≤ key y
    · simp only [insortDesc, if_pos hle]
      refine List.pairwise_cons.mpr ⟨?_, ?_⟩
      · intro z hz
        rcases List.mem_cons.mp ((insortDesc_perm key x ys).mem_iff.mp hz)
          with hzx | hz
        · rw [hzx]
          exact hyx y (List.mem_cons_self y ys) hle
        · exact hRy z hz
      · exact ih hsys hRys
          (fun z hz h => hyx z (List.mem_cons_of_mem _ hz) h)
          (fun z hz h => hxy z (List.mem_cons_of_mem _ hz) h)
    · simp only [insortDesc, if_neg hle]
      refine List.pairwise_cons.mpr ⟨?_, hR⟩
      intro z hz
      rcases List.mem_cons.mp hz with hzy | hz
      · rw [hzy]
        exact hxy y (List.mem_cons_self y ys) hle
      · refine hxy z (List.mem_cons_of_mem _ hz) ?_
        intro hxz
        exact hle (le_trans hxz (hsy z hz))

theorem pySortDesc_loop {α : Type} (key : α → String) :
    ∀ (rest p acc : List α), acc.Perm p →
      acc.Pairwise (fun a b => key b ≤ key a) →
      acc.Pairwise (fun a b => key b < key a ∨
        (key a = key b ∧ [a, b].Sublist p)) →
      (rest.foldl (fun ac x => insortDesc key x ac) acc).Perm (p ++ rest) ∧
      (rest.foldl (fun ac x => insortDesc key x ac) acc).Pairwise
        (fun a b => key b ≤ key a) ∧
      (rest.foldl (fun ac x => insortDesc key x ac) acc).Pairwise
        (fun a b => key b < key a ∨ (key a = key b ∧
          [a, b].Sublist (p ++ rest))) := by
  intro rest
  induction rest with
  | nil =>
    intro p acc hperm hsort hpair
    simp only [List.foldl_nil, List.append_nil]
    exact ⟨hperm, hsort, hpair⟩
  | cons x rest ih =>
    intro p acc hperm hsort hpair
    simp only [List.foldl_cons]
    have hperm' : (insortDesc key x acc).Perm (p ++ [x]) :=
      (insortDesc_perm key x acc).trans
        ((hperm.cons x).trans (List.perm_append_singleton x p).symm)
    have hsort' := insortDesc_sorted key x acc hsort
    have hpair' : (insortDesc key x acc).Pairwise (fun a b =>
        key b < key a ∨ (key a = key b ∧ [a, b].Sublist (p ++ [x]))) := by
      refine insortDesc_pairwise key x acc hsort ?_ ?_ ?_
      · refine hpair.imp ?_
        intro a b hab
        rcases hab with h | ⟨he, hs⟩
        · exact Or.inl h
        · exact Or.inr ⟨he, hs.trans (List.sublist_append_left p [x])⟩
      · intro y hy hle
        rcases lt_or_eq_of_le hle with hlt | heq
        · exact Or.inl hlt
        · exact Or.inr ⟨heq.symm,
            List.Sublist.append (List.singleton_sublist.mpr (hperm.subset hy))
              (List.Sublist.refl [x])⟩
      · intro y hy hle
        exact Or.inl (lt_of_not_le hle)
    obtain ⟨h1, h2, h3⟩ :=
      ih (p ++ [x]) (insortDesc key x acc) hperm' hsort' hpair'
    rw [List.append_assoc, List.singleton_append] at h1 h3
    exact ⟨h1, h2, h3⟩

/-- Characterisation of Python's `list.sort(key=key, reverse=True)`:
the result is a permutation, weakly descending in the key, and any pair
of equal-key elements keeps its original relative order (the pair, in
output order, is a subsequence of the input). -/
theorem pySortDesc_spec {α : Type} (key : α → String) (l : List α) :
    (pySortDesc key l).Perm l ∧
    (pySortDesc key l).Pairwise (fun a b => key b ≤ key a) ∧
    (pySortDesc key l).Pairwise (fun a b => key b < key a ∨
      (key a = key b ∧ [a, b].Sublist l)) := by
  have h := pySortDesc_loop key l [] [] (List.Perm.refl [])
    List.Pairwise.nil List.Pairwise.nil
  simpa [pySortDesc] using h

theorem pair_sublist_total {α : Type} :
    ∀ (base : List α) (a b : α), a ∈ base → b ∈ base → a ≠ b →
      [a, b].Sublist base ∨ [b, a].Sublist base := by
  intro base
  induction base with
  | nil =>
    intro a b ha _ _
    cases ha
  | cons x xs ih =>
    intro a b ha hb hne
    rcases List.mem_cons.mp ha with hax | ha'
    · have hbxs : b ∈ xs := by
        rcases List.mem_cons.mp hb with hbx | hb'
        · exact absurd (hax.trans hbx.symm) hne
        · exact hb'
      refine Or.inl ?_
      rw [hax]
      exact List.Sublist.cons₂ x (List.singleton_sublist.mpr hbxs)
    · rcases List.mem_cons.mp hb with hbx | hb'
      · refine Or.inr ?_
        rw [hbx]
        exact List.Sublist.cons₂ x (List.singleton_sublist.mpr ha')
      · exact (ih a b ha' hb' hne).imp (List.Sublist.cons x)
          (List.Sublist.cons x)

theorem pair_sublist_asymm {α : Type} :
    ∀ (base : List α), base.Nodup → ∀ (a b : α), a ≠ b →
      ¬ ([a, b].Sublist base ∧ [b, a].Sublist base) := by
  intro base
  induction base with
  | nil =>
    rintro - a b - ⟨h1, -⟩
    simp at h1
  | cons x xs ih =>
    rintro hnd a b hne ⟨h1, h2⟩
    obtain ⟨hx, hxs⟩ := List.nodup_cons.mp hnd
    cases h1 with
    | cons _ h1' =>
      cases h2 with
      | cons _ h2' =>
        exact ih hxs a b hne ⟨h1', h2'⟩
      | cons₂ _ h2' =>
        exact hx (h1'.subset (by simp))
    | cons₂ _ h1' =>
      cases h2 with
      | cons _ h2' =>
        exact hx (h2'.subset (by simp))
      | cons₂ _ h2' =>
        exact hne rfl

/-- The view list built from a stably sorted feed is newest-first with
ties in feed order. -/
theorem outOrdered_build (s : State) (base : List Tweet) :
    OutOrdered ((pySortDesc Tweet.created_at base).map (build_tweet_out s 0))
      base := by
  obtain ⟨hperm, hsort, hpair⟩ := pySortDesc_spec Tweet.created_at base
  have hcomp : TweetOut.id ∘ build_tweet_out s 0 = Tweet.id :=
    funext (fun t => build_tweet_out_id s 0 t)
  have hid : ((pySortDesc Tweet.created_at base).map
      (build_tweet_out s 0)).map TweetOut.id =
      (pySortDesc Tweet.created_at base).map Tweet.id := by
    rw [List.map_map, hcomp]
  refine ⟨hid, ?_, ?_⟩
  · rw [hid]
    exact hperm.map Tweet.id
  · rw [List.pairwise_map]
    refine hpair.imp ?_
    intro a b hab
    rcases hab with h | ⟨he, hs⟩
    · exact Or.inl (by
        rw [build_tweet_out_created_at, build_tweet_out_created_at]
        exact h)
    · refine Or.inr ⟨by
        rw [build_tweet_out_created_at, build_tweet_out_created_at]
        exact he, ?_⟩
      rw [build_tweet_out_id, build_tweet_out_id]
      simpa using hs.map Tweet.id

theorem get_timeline_ok (s : State) (u : String) (l : List TweetOut)
    (h : get_timeline s u = .ok l) :
    l = (pySortDesc Tweet.created_at (timeline_feed s u)).map
      (build_tweet_out s 0) := by
  revert h
  unfold get_timeline
  split
  · intro h
    simp at h
  · split
    · rename_i h0
      intro h
      have hfeed : timeline_feed s u = [] := by
        unfold timeline_feed
        refine List.filter_eq_nil_iff.mpr ?_
        intro t ht
        rw [h0]
        simp
      rw [← Except.ok.inj h, hfeed]
      rfl
    · intro h
      exact (Except.ok.inj h).symm

theorem get_user_tweets_ok (s : State) (u : String) (l : List TweetOut)
    (h : get_user_tweets s u = .ok l) :
    l = (pySortDesc Tweet.created_at (user_tweets_feed s u)).map
      (build_tweet_out s 0) := by
  revert h
  unfold get_user_tweets
  split
  · intro h
    simp at h
  · intro h
    exact (Except.ok.inj h).symm

theorem get_mentions_ok (s : State) (u : String) (user : User)
    (l : List TweetOut) (hu : dictGet? s.users u = some user)
    (h : get_mentions s u = .ok l) :
    l = (pySortDesc Tweet.created_at
      (mentions_feed s (pyLower user.username))).map (build_tweet_out s 0) := by
  revert h
  unfold get_mentions
  split
  · rename_i heq
    rw [hu] at heq
    cases heq
  · rename_i user' heq
    rw [hu] at heq
    cases heq
    intro h
    exact (Except.ok.inj h).symm

/-! ## Claim C2 — deterministic newest-first total order -/

/-- C2: every read operation that returns posts newest-first (timeline,
posts-by-author, mentions, posts-by-hashtag) returns a sequence ordered
by a strict deterministic total order: creation timestamp descending,
with equal-timestamp posts ordered exactly as in the operation's
deterministic pre-sort feed (the insertion-ordered store / index
projection), never by incidental iteration order; the final conjunct
shows the feed-order tie-break is total and antisymmetric on any
duplicate-free feed, hence a strict total order. -/
theorem newest_first_deterministic_order (s : State) (u tag : String) :
    (∀ l, get_timeline s u = .ok l → OutOrdered l (timeline_feed s u)) ∧
    (∀ l, get_user_tweets s u = .ok l →
      OutOrdered l (user_tweets_feed s u)) ∧
    (∀ user l, dictGet? s.users u = some user → get_mentions s u = .ok l →
      OutOrdered l (mentions_feed s (pyLower user.username))) ∧
    OutOrdered (get_tweets_by_hashtag s tag) (hashtag_feed s tag) ∧
    (∀ (base : List Tweet) (a b : Tweet), base.Nodup → a ∈ base →
      b ∈ base → a ≠ b →
      ([a, b].Sublist base ∨ [b, a].Sublist base) ∧
      ¬ ([a, b].Sublist base ∧ [b, a].Sublist base)) := by
  refine ⟨?_, ?_, ?_, ?_, ?_⟩
  · intro l hl
    rw [get_timeline_ok s u l hl]
    exact outOrdered_build s (timeline_feed s u)
  · intro l hl
    rw [get_user_tweets_ok s u l hl]
    exact outOrdered_build s (user_tweets_feed s u)
  · intro user l hu hl
    rw [get_mentions_ok s u user l hu hl]
    exact outOrdered_build s (mentions_feed s (pyLower user.username))
  · exact outOrdered_build s (hashtag_feed s tag)
  · intro base a b hnd ha hb hne
    exact ⟨pair_sublist_total base a b ha hb hne,
      pair_sublist_asymm base hnd a b hne⟩

/-- C2 witness: in the reachable sample state the timeline read of `a`
returns (deterministically) the empty, trivially ordered sequence. -/
theorem newest_first_deterministic_order_witness :
    get_timeline wR4 "a" = .ok [] ∧ OutOrdered [] (timeline_feed wR4 "a") :=
  ⟨rfl, (newest_first_deterministic_order wR4 "a" "x").1 [] rfl⟩

end TwitterApp
